import Mathlib

/-!
Verification development for the AceBase path-oriented storage and event
engine (browser bundle). Each definition is a shallow embedding of a
function of the source bundle; the source location is given next to each
definition. Theorems at the end of the file settle the specification
claims against these definitions.
-/

set_option maxHeartbeats 1000000

namespace AceBase

/-! ## JavaScript value model

Values that can appear in the engine: the nine storable kinds plus the
JavaScript constants null and undefined. Objects are association lists of
string keys (JavaScript objects have unique keys; well-formedness is
assumed where needed); arrays are ordered lists. Binary values model
ArrayBuffer contents as byte lists, dates carry their epoch-millisecond
timestamp, path references carry their path string.
-/

inductive JsVal where
  | vnull
  | vundef
  | num (n : Int)
  | bool (b : Bool)
  | str (s : String)
  | date (ms : Int)
  | binary (bytes : List Nat)
  | pathref (path : String)
  | obj (entries : List (String × JsVal))
  | arr (items : List JsVal)
deriving Repr

/-- Result of the typeof operator on a modelled value. -/
def jsTypeof : JsVal → String
  | .vnull => "object"
  | .vundef => "undefined"
  | .num _ => "number"
  | .bool _ => "boolean"
  | .str _ => "string"
  | .date _ => "object"
  | .binary _ => "object"
  | .pathref _ => "object"
  | .obj _ => "object"
  | .arr _ => "object"

/-- Number of UTF-16 code units a character occupies: this is what the
JavaScript string length property counts. -/
def utf16Units (c : Char) : Nat :=
  if c.toNat < 0x10000 then 1 else 2

/-- JavaScript string length (UTF-16 code units). -/
def jsStringLength (s : String) : Nat :=
  (s.data.map utf16Units).sum

/-- Bytes the UTF-8 encoding uses for one code point, mirroring the
manual encoder of encodeString (src/unnamed/part_000 lines 3520-3581):
one byte below 0x80, two below 0x800, three below 0x10000, four above. -/
def jsUtf8Size (c : Char) : Nat :=
  if c.toNat < 0x80 then 1
  else if c.toNat < 0x800 then 2
  else if c.toNat < 0x10000 then 3
  else 4

/-- Byte length of the Uint8Array produced by encodeString
(src/unnamed/part_000 lines 3520-3583). -/
def encodeStringSize (s : String) : Nat :=
  (s.data.map jsUtf8Size).sum

/-! ## Value type constants (src/unnamed/part_000 lines 5739-5751) -/

def VT_OBJECT : Nat := 1
def VT_ARRAY : Nat := 2
def VT_NUMBER : Nat := 3
def VT_BOOLEAN : Nat := 4
def VT_STRING : Nat := 5
def VT_DATETIME : Nat := 6
def VT_BINARY : Nat := 8
def VT_REFERENCE : Nat := 9

/-! ## Storage settings (src/unnamed/part_000 lines 7586-7609) -/

structure StorageSettings where
  maxInlineValueSize : Nat
  removeVoidProperties : Bool
deriving Repr, DecidableEq

/-- Default settings: maxInlineValueSize 50, removeVoidProperties false. -/
def storageSettingsDefault : StorageSettings :=
  { maxInlineValueSize := 50, removeVoidProperties := false }

/-!
Storage.valueFitsInline (src/unnamed/part_000 lines 8011-8040).
Notes on the faithful translation:
- strings and path references: the source first returns false when the
  UTF-16 length exceeds the limit, then tests
  encodeString(value).length < maxInlineValueSize, a strict comparison;
- ArrayBuffer: the source tests value.length < maxInlineValueSize, but an
  ArrayBuffer has no length property (only byteLength), so the left side
  is undefined and the comparison is false in JavaScript; the translation
  therefore returns false for every binary value;
- null and undefined fall through to the Object.keys call or the final
  else branch and raise a TypeError, modelled by none.
-/
def valueFitsInline (maxInlineValueSize : Nat) : JsVal → Option Bool
  | .num _ => some true
  | .bool _ => some true
  | .date _ => some true
  | .str s =>
      some (if jsStringLength s > maxInlineValueSize then false
            else decide (encodeStringSize s < maxInlineValueSize))
  | .pathref p =>
      some (if jsStringLength p > maxInlineValueSize then false
            else decide (encodeStringSize p < maxInlineValueSize))
  | .binary _ => some false
  | .arr items => some (decide (items.length = 0))
  | .obj entries => some (decide (entries.length = 0))
  | .vnull => none
  | .vundef => none

/-! ## Structural comparison: compareValues (src/unnamed/part_000 lines 3733-3806)

The source function returns one of the strings identical, added, removed,
changed, or an object with the keys that were added, removed and changed.
The diff constructor below records those key lists; for array comparisons
the numeric keys are recorded as their decimal strings and a NaN key
(parseInt of a non numeric key) is recorded as the string NaN. The per key
sub results carried by the changed list in the source are not recorded:
every claim only distinguishes identical from non identical, and a key
enters the changed list exactly when its recursive comparison is not
identical, which is computed faithfully below.
-/

inductive CmpRes where
  | identical
  | added
  | removed
  | changed
  | diff (addedKeys removedKeys changedKeys : List String)
deriving Repr, DecidableEq

/-- Builds the object result of compareValues: when nothing was added,
removed or changed the source returns identical (lines 3791-3800). -/
def mkDiffRes (addedKeys removedKeys changedKeys : List String) : CmpRes :=
  if addedKeys.isEmpty && removedKeys.isEmpty && changedKeys.isEmpty then .identical
  else .diff addedKeys removedKeys changedKeys

/-- Strict equality (the === fast path of compareValues, line 3736).
Primitive values compare by value. Composite kinds (objects, arrays,
dates, binaries, path references) compare by reference in JavaScript; the
engine always compares two distinct snapshot objects, so the model treats
the two sides as distinct references. Structurally equal composites still
compare identical through the structural branches. -/
def jsStrictEq : JsVal → JsVal → Bool
  | .vnull, .vnull => true
  | .vundef, .vundef => true
  | .num a, .num b => a == b
  | .bool a, .bool b => a == b
  | .str a, .str b => a == b
  | _, _ => false

/-- Membership of a value in the voids list [undefined, null] (line 3734). -/
def isVoid : JsVal → Bool
  | .vnull => true
  | .vundef => true
  | _ => false

/-- Lookup of a property on a JavaScript object: returns undefined when
the key is absent. -/
def alGetD (l : List (String × JsVal)) (k : String) : JsVal :=
  match l with
  | [] => .vundef
  | (a, v) :: rest => if a = k then v else alGetD rest k

/-- Membership test on the key list of an object. -/
def hasKey (l : List (String × JsVal)) (k : String) : Bool :=
  l.any (fun e => e.1 == k)

/-- Object.keys of an object value. -/
def objKeys (l : List (String × JsVal)) : List String :=
  l.map (fun e => e.1)

/-- Object.keys of an array value: the decimal strings 0 .. len-1. -/
def arrStrKeys (len : Nat) : List String :=
  (List.range len).map (fun i => toString i)

/-- parseInt on an object key, as used by the array branch of
compareValues (lines 3772-3777). Returns none for NaN. Stored array keys
are canonical decimal strings; sign or whitespace prefixes are not
modelled. -/
def parseIntKey (s : String) : Option Nat :=
  let digits := s.takeWhile Char.isDigit
  if digits.isEmpty then none else some (digits.toNat?.getD 0)

/-- Rendering of a parsed numeric key back to a string for the diff
record (NaN for a failed parse). -/
def renderIntKey : Option Nat → String
  | some n => toString n
  | none => "NaN"

/-- Membership with === semantics on parsed numeric keys: NaN is equal to
nothing, including itself. -/
def keyEqNum : Option Nat → Option Nat → Bool
  | some a, some b => a == b
  | _, _ => false

theorem sizeOf_alGetD_le (l : List (String × JsVal)) (k : String) :
    sizeOf (alGetD l k) ≤ sizeOf l := by
  induction l with
  | nil => simp [alGetD]
  | cons e rest ih =>
    obtain ⟨a, v⟩ := e
    simp only [alGetD]
    split
    · simp only [List.cons.sizeOf_spec, Prod.mk.sizeOf_spec]; omega
    · have := ih
      simp only [List.cons.sizeOf_spec, Prod.mk.sizeOf_spec]; omega

theorem sizeOf_getD_le (l : List JsVal) (i : Nat) :
    sizeOf ((l[i]?).getD JsVal.vundef) ≤ sizeOf l := by
  induction l generalizing i with
  | nil => simp [List.getElem?_nil, Option.getD]
  | cons a rest ih =>
    cases i with
    | zero =>
      simp only [List.getElem?_cons_zero, Option.getD_some, List.cons.sizeOf_spec]
      omega
    | succ j =>
      have := ih j
      simp only [List.getElem?_cons_succ, List.cons.sizeOf_spec]
      omega

mutual

/-- compareValues (src/unnamed/part_000 lines 3733-3806), mirrored branch
by branch. The final else branches return changed because the strict
equality fast path has already failed for two primitives of equal type.
The path reference kind has no dedicated branch in the source: such
values fall into the object branch with the single own property path; the
pairings below spell that out. -/
def compareValues (oldVal newVal : JsVal) : CmpRes :=
  if jsStrictEq oldVal newVal then .identical
  else if isVoid oldVal && !isVoid newVal then .added
  else if !isVoid oldVal && isVoid newVal then .removed
  else if jsTypeof oldVal ≠ jsTypeof newVal then .changed
  else
    match oldVal, newVal with
    | .binary a, .binary b => if a = b then .identical else .changed
    | .binary _, _ => .changed
    | _, .binary _ => .changed
    | .date a, .date b => if a = b then .identical else .changed
    | .date _, _ => .changed
    | _, .date _ => .changed
    | .obj o, .obj n =>
        mkDiffRes ((objKeys n).filter (fun k => !(objKeys o).contains k))
                  ((objKeys o).filter (fun k => !(objKeys n).contains k))
                  (changedStrEntries o n)
    | .obj o, .arr n =>
        mkDiffRes ((arrStrKeys n.length).filter (fun k => !(objKeys o).contains k))
                  ((objKeys o).filter (fun k => !(arrStrKeys n.length).contains k))
                  (changedObjArr o 0 n)
    | .obj o, .pathref p =>
        mkDiffRes (if (objKeys o).contains "path" then [] else ["path"])
                  ((objKeys o).filter (fun k => k ≠ "path"))
                  (if (objKeys o).contains "path"
                      && !(compareValues (alGetD o "path") (.str p) == .identical)
                   then ["path"] else [])
    | .arr o, .arr n =>
        mkDiffRes (((List.range n.length).filter (fun i => !(i < o.length))).map
                     (fun i => toString i))
                  (((List.range o.length).filter (fun i => !(i < n.length))).map
                     (fun i => toString i))
                  (changedArrArr o 0 n)
    | .arr o, .obj n =>
        mkDiffRes (((objKeys n).map parseIntKey).filter
                     (fun k => !((List.range o.length).map Option.some).any (keyEqNum k))
                   |>.map renderIntKey)
                  (((List.range o.length).filter
                     (fun i => !((objKeys n).map parseIntKey).any (keyEqNum (some i))))
                   |>.map (fun i => toString i))
                  (changedArrObj o n)
    | .arr o, .pathref _ =>
        mkDiffRes ["NaN"]
                  ((List.range o.length).map (fun i => toString i))
                  []
    | .pathref p, .obj n =>
        mkDiffRes ((objKeys n).filter (fun k => k ≠ "path"))
                  (if (objKeys n).contains "path" then [] else ["path"])
                  (changedPathrefEntries p n)
    | .pathref _, .arr n =>
        mkDiffRes (arrStrKeys n.length) ["path"] []
    | .pathref a, .pathref b =>
        mkDiffRes [] [] (if a = b then [] else ["path"])
    | _, _ => .changed
termination_by sizeOf oldVal + sizeOf newVal
decreasing_by
  all_goals simp_wf
  all_goals try omega
  all_goals (have hb := sizeOf_alGetD_le o "path"; omega)

/-- Changed keys for an object compared with an object: walks the new
entries and recursively compares the values at common keys. -/
def changedStrEntries (o : List (String × JsVal)) :
    List (String × JsVal) → List String
  | [] => []
  | (k, w) :: rest =>
      let tail := changedStrEntries o rest
      if hasKey o k && !(compareValues (alGetD o k) w == .identical)
      then k :: tail else tail
termination_by l => sizeOf o + sizeOf l
decreasing_by
  all_goals simp_wf
  all_goals (have hb := sizeOf_alGetD_le o a; omega)

/-- Changed keys for an object compared with an array (string keys). -/
def changedObjArr (o : List (String × JsVal)) (i : Nat) :
    List JsVal → List String
  | [] => []
  | w :: rest =>
      let tail := changedObjArr o (i + 1) rest
      if hasKey o (toString i)
         && !(compareValues (alGetD o (toString i)) w == .identical)
      then toString i :: tail else tail
termination_by l => sizeOf o + sizeOf l
decreasing_by
  all_goals simp_wf
  all_goals (have hb := sizeOf_alGetD_le o (toString i); omega)

/-- Changed indices for an array compared with an array. -/
def changedArrArr (o : List JsVal) (i : Nat) : List JsVal → List String
  | [] => []
  | w :: rest =>
      let tail := changedArrArr o (i + 1) rest
      if i < o.length && !(compareValues (o.getD i .vundef) w == .identical)
      then toString i :: tail else tail
termination_by l => sizeOf o + sizeOf l
decreasing_by
  all_goals simp_wf
  all_goals (have hb := sizeOf_getD_le o i; simp only [List.getD] at hb; omega)

/-- Changed indices for an array compared with an object whose keys are
parsed as integers. -/
def changedArrObj (o : List JsVal) : List (String × JsVal) → List String
  | [] => []
  | (k, w) :: rest =>
      let tail := changedArrObj o rest
      match parseIntKey k with
      | some j =>
          if j < o.length && !(compareValues (o.getD j .vundef) w == .identical)
          then toString j :: tail else tail
      | none => tail
termination_by l => sizeOf o + sizeOf l
decreasing_by
  all_goals simp_wf
  all_goals (have hb := sizeOf_getD_le o j; simp only [List.getD] at hb; omega)

/-- Changed keys for a path reference compared with an object: the only
own property of the old side is path, holding the path string. -/
def changedPathrefEntries (a : String) : List (String × JsVal) → List String
  | [] => []
  | (k, w) :: rest =>
      let tail := changedPathrefEntries a rest
      if k = "path" && !(compareValues (.str a) w == .identical)
      then k :: tail else tail
termination_by l => (1 + sizeOf a) + sizeOf l
decreasing_by
  all_goals simp_wf
  all_goals omega

end

/-! ## Event trigger decision (src/unnamed/part_000 lines 8337-8371)

callSubscriberWithValues strips a notify prefix, then decides whether to
trigger the subscription callback from the event type and the old and new
values at the concrete data path. Only the trigger decision is modelled;
the variable substitution into the data path and the trigger call itself
carry no decision logic.
-/

/-- Test against the JavaScript null constant (=== null). -/
def isNullV : JsVal → Bool
  | .vnull => true
  | _ => false

/-- Test for the JavaScript undefined constant (typeof is undefined). -/
def isUndefV : JsVal → Bool
  | .vundef => true
  | _ => false

/-- Prefix test on strings by character list, modelling
String.prototype.startsWith. -/
def strStartsWith (s pre : String) : Bool :=
  pre.data.isPrefixOf s.data

/-- Removal of the first n characters, modelling String.prototype.slice
from a character count. -/
def strDropChars (s : String) (n : Nat) : String :=
  String.mk (s.data.drop n)

/-- Trigger decision of callSubscriberWithValues (lines 8337-8358).
The let trigger = true default applies to any type not matched below; the
mutated type returns early without triggering. -/
def callSubscriberTrigger (subType : String) (oldValue newValue : JsVal) : Bool :=
  let type := if strStartsWith subType "notify_" then
                strDropChars subType "notify_".data.length
              else subType
  if type == "mutated" then false
  else if type == "child_changed" && (isNullV oldValue || isNullV newValue) then
    false
  else if type == "value" || type == "child_changed" then
    !(compareValues oldValue newValue == .identical)
  else if type == "child_added" then
    isNullV oldValue && !(isNullV newValue)
  else if type == "child_removed" then
    !(isNullV oldValue) && isNullV newValue
  else true

/-! ## Node locker (src/unnamed/part_000 lines 5431-5737)

The lock queue is a single global list. The done state is not modelled:
the source sets a lock to DONE and removes it from the queue in the same
synchronous call (unlock, lines 5632-5634).
-/

inductive LockState where
  | pending
  | locked
  | expired
deriving Repr, DecidableEq

structure NLock where
  id : Nat
  path : String
  tid : Nat
  forWriting : Bool
  priority : Bool
  requested : Nat
  state : LockState
deriving Repr, DecidableEq

structure NodeLocker where
  locks : List NLock
  nextId : Nat
deriving Repr, DecidableEq

/-- NodeLocker._allowLock (lines 5463-5488). Path locking is disabled in
the source (see the deadlock comment there): a conflict is any lock of a
different transaction that is currently granted, when either side wants
to write. Returns the conflicting lock, if any. -/
def allowLock (locks : List NLock) (tid : Nat) (forWriting : Bool) : Option NLock :=
  locks.find? (fun otherLock =>
    otherLock.tid != tid && otherLock.state == .locked
      && (forWriting || otherLock.forWriting))

/-- Comparator of the pending queue sort (lines 5497-5507). Priority
requests sort first. For equal priority the source returns the raw
boolean a.requested < b.requested where a number is expected: per the
ECMAScript sort semantics the boolean is converted with ToNumber, so true
becomes 1 (a sorts after b) and false becomes plus zero (treated as a
tie). The comparator is therefore inconsistent: for a requested earlier
than b it yields 1, while the swapped call yields 0. -/
def lockCmp (a b : NLock) : Int :=
  if a.priority && !b.priority then -1
  else if !a.priority && b.priority then 1
  else if a.requested < b.requested then 1 else 0

/-- Insertion step of the sort model: the element is placed before the
first element it does not sort after. -/
def jsSortInsert (cmp : NLock → NLock → Int) (x : NLock) : List NLock → List NLock
  | [] => [x]
  | y :: ys => if cmp x y ≤ 0 then x :: y :: ys else y :: jsSortInsert cmp x ys

/-- Model of Array.prototype.sort for the pending queue. With an
inconsistent comparator the ECMAScript sort order is implementation
defined; this model is a comparator honouring insertion sort (the
algorithm used by pre TimSort engines for short arrays). -/
def jsSort (cmp : NLock → NLock → Int) (l : List NLock) : List NLock :=
  l.foldr (jsSortInsert cmp) []

/-- Marks the lock with the given id as granted (state locked). In the
source this is the synchronous grant inside lock() when called with an
already queued NodeLock (lines 5528-5532 and 5561-5563). -/
def grantLock (st : NodeLocker) (id : Nat) : NodeLocker :=
  { st with locks := st.locks.map (fun l =>
      if l.id = id then { l with state := LockState.locked } else l) }

/-- NodeLocker._processLockQueue (lines 5490-5517): sorts the pending
requests with the comparator above and grants, in that order, each one
that is compatible with the locks granted at that moment. -/
def processLockQueue (st : NodeLocker) : NodeLocker :=
  let pending := st.locks.filter (fun l => l.state == .pending)
  let sorted := jsSort lockCmp pending
  sorted.foldl (fun acc l =>
    if (allowLock acc.locks l.tid l.forWriting).isNone then grantLock acc l.id
    else acc) st

/-- NodeLocker.lock for a fresh request (lines 5526-5613). Returns the
state after the call and: none when the request is rejected because a
lock of the same transaction has expired; some true when the lock is
granted immediately; some false when it is queued pending. -/
def requestLock (st : NodeLocker) (path : String) (tid : Nat)
    (forWriting priority : Bool) (requested : Nat) : NodeLocker × Option Bool :=
  if st.locks.any (fun l => l.tid == tid && l.state == .expired) then (st, none)
  else
    let lk : NLock :=
      { id := st.nextId + 1, path := path, tid := tid, forWriting := forWriting,
        priority := priority, requested := requested, state := .pending }
    let st1 : NodeLocker := { locks := st.locks ++ [lk], nextId := st.nextId + 1 }
    if (allowLock st1.locks tid forWriting).isNone then (grantLock st1 lk.id, some true)
    else (st1, some false)

/-- NodeLocker.unlock (lines 5615-5640): removes the lock from the queue,
then processes the pending queue unless processQueue is false. -/
def releaseLock (st : NodeLocker) (id : Nat) (processQueue : Bool) : NodeLocker :=
  let st1 : NodeLocker := { st with locks := st.locks.filter (fun l => !(l.id == id)) }
  if processQueue then processLockQueue st1 else st1

/-- Expiry of a granted lock after three timeout warnings (lines
5574-5596): the state becomes expired and the pending queue is processed. -/
def expireLock (st : NodeLocker) (id : Nat) : NodeLocker :=
  processLockQueue
    { st with locks := st.locks.map (fun l =>
        if l.id = id then { l with state := LockState.expired } else l) }

/-- In place move of a held lock (NodeLock.moveTo and moveToParent, lines
5686-5733, allowed branch): when the move is compatible the lock keeps its
place in the queue and only its path and mode change. The not allowed
branch is an unlock without queue processing followed by a fresh priority
request, covered by the release and request steps. -/
def moveLockTo (st : NodeLocker) (id : Nat) (newPath : String)
    (forWriting : Bool) : NodeLocker :=
  { st with locks := st.locks.map (fun l =>
      if l.id = id then { l with path := newPath, forWriting := forWriting }
      else l) }

/-- One atomic synchronous step of the node locker. Every mutation of the
lock queue in the source happens inside one of these synchronous
sections. -/
inductive LockStep : NodeLocker → NodeLocker → Prop where
  | request (st : NodeLocker) (path : String) (tid : Nat)
      (forWriting priority : Bool) (requested : Nat) :
      LockStep st (requestLock st path tid forWriting priority requested).1
  | release (st : NodeLocker) (id : Nat) (processQueue : Bool)
      (h : st.locks.any (fun l => l.id == id) = true) :
      LockStep st (releaseLock st id processQueue)
  | expire (st : NodeLocker) (id : Nat)
      (h : st.locks.any (fun l => l.id == id && l.state == .locked) = true) :
      LockStep st (expireLock st id)
  | moveTo (st : NodeLocker) (l : NLock) (newPath : String) (forWriting : Bool)
      (hmem : l ∈ st.locks)
      (hallow : (allowLock st.locks l.tid forWriting).isNone = true) :
      LockStep st (moveLockTo st l.id newPath forWriting)

/-- Initial state of a NodeLocker (constructor, lines 5451-5457). -/
def lockerInit : NodeLocker := { locks := [], nextId := 0 }

/-- States of the global lock queue reachable by any sequence of lock,
unlock, expiry and move operations. -/
inductive LockerReachable : NodeLocker → Prop where
  | init : LockerReachable lockerInit
  | step {s t : NodeLocker} : LockerReachable s → LockStep s t → LockerReachable t

/-- Single writer exclusion: whenever a granted write lock exists, every
granted lock belongs to the same transaction. -/
def WriteExclusive (st : NodeLocker) : Prop :=
  ∀ w ∈ st.locks, w.state = .locked → w.forWriting = true →
    ∀ l ∈ st.locks, l.state = .locked → l.tid = w.tid

/-- Well formedness carried through every step together with the
exclusion property: lock ids are pairwise distinct and never exceed the
id counter (the source allocates ids with ++this._lastTid, lines
5526-5534). -/
def lockerInv (st : NodeLocker) : Prop :=
  WriteExclusive st ∧ (st.locks.map NLock.id).Nodup
    ∧ ∀ l ∈ st.locks, l.id ≤ st.nextId

/-! ## Transaction retry control flow (src/unnamed/part_000 lines 8643-8719)

Storage.transactNode reads the node, runs the callback and commits with
setNode under an assert revision option. The catch handler (lines
8707-8717) releases the lock and, when the error is a NodeRevisionError,
calls transactNode again recursively; every other error is rethrown. The
environment of one attempt is abstracted as its outcome: the commit may
succeed, fail the optimistic revision check (NodeRevisionError, raised by
CustomStorage setNode at lines 7369-7373 or by the changed flag check at
lines 8698-8700), or fail with any other error.
-/

inductive TxOutcome where
  | success
  | revisionMismatch
  | otherError
deriving Repr, DecidableEq

inductive TxResult where
  | committed
  | failed
  | exhausted
deriving Repr, DecidableEq

/-- Retry control flow of transactNode against a sequence of attempt
outcomes. Returns the number of attempts executed and the final result.
A NodeRevisionError leads to a recursive retry with no retry counter; any
other error propagates; the exhausted result is a model artifact for an
input list that ends before a non mismatch outcome occurs. -/
def transactAttempts : List TxOutcome → Nat × TxResult
  | [] => (0, .exhausted)
  | .success :: _ => (1, .committed)
  | .otherError :: _ => (1, .failed)
  | .revisionMismatch :: rest =>
      ((transactAttempts rest).1 + 1, (transactAttempts rest).2)

/-! ## Query planning guards (src/unnamed/part_000 lines 4490-4737)

LocalApi.query assigns an index to every filter it can, collects the
remaining filters as table scan filters and rejects the query in three
cases, in source order: a table scan filter with a specialized operator,
a table scan filter with an unknown operator, and a wildcard path with
remaining table scan filters. All three rejections happen before any
index or record is read (the index scans are started at lines 4739-4765,
after the checks).
-/

structure QFilter where
  key : String
  op : String
deriving Repr, DecidableEq

structure QIndex where
  key : String
  typeName : String
  includeKeys : List String
  validOperators : List String
deriving Repr, DecidableEq

structure QSort where
  key : String
  ascending : Bool
deriving Repr, DecidableEq

/-- DataIndex.validOperators: the standard operators an index accepts for
metadata filtering (the source set used at line 4666). -/
def dataIndexValidOperators : List String :=
  ["<", "<=", "==", "!=", ">=", ">", "exists", "!exists", "between", "!between",
   "like", "!like", "matches", "!matches", "in", "!in"]

/-- Operators a table scan may evaluate (line 4718). -/
def allowedTableScanOperators : List String :=
  ["<", "<=", "==", "!=", ">=", ">", "like", "!like", "in", "!in", "matches",
   "!matches", "between", "!between", "has", "!has", "contains", "!contains",
   "exists", "!exists"]

/-- Test of the specialized operator regex at line 4710: one or more
letters followed by a colon. -/
def isSpecialOp (op : String) : Bool :=
  let letters := op.data.takeWhile Char.isAlpha
  !letters.isEmpty && (op.data.drop letters.length).head? == some ':'

/-- Scoring of a candidate index for one filter (lines 4639-4655): points
for covering other filter keys and sort keys through the indexed and
included keys. -/
def indexPoints (idx : QIndex) (otherFilterKeys sortKeys : List String)
    (take : Int) : Nat :=
  let availableKeys := idx.includeKeys ++ [idx.key]
  let forOtherFilters := availableKeys.filter (fun k => otherFilterKeys.contains k)
  let forSorting := availableKeys.filter (fun k => sortKeys.contains k)
  let forBoth := forOtherFilters
    ++ forSorting.filter (fun k => !forOtherFilters.contains k)
  forOtherFilters.length
    + forSorting.length * (if take != 0 then forSorting.length else 1)
    + forBoth.length * forBoth.length

/-- Choice among the candidate indexes of one filter: the source sorts by
points descending with an always 1 tie result and takes the head; modelled
as the first candidate with maximal points. -/
def pickBestIndex (candidates : List (QIndex × Nat)) : Option QIndex :=
  match candidates with
  | [] => none
  | c :: rest =>
      some (rest.foldl (fun best x => if x.2 > best.2 then x else best) c).1

/-- Map with the position index, used to update the assignment list in
place. -/
def mapIdxGo (f : Nat → α → β) (i : Nat) : List α → List β
  | [] => []
  | a :: rest => f i a :: mapIdxGo f (i + 1) rest

def mapWithIdx (f : Nat → α → β) (l : List α) : List β :=
  mapIdxGo f 0 l

/-- Index assignment loop of LocalApi.query (lines 4617-4684): each
filter without an index gets the best scoring index among those on its
key that accept its operator; that index is then also assigned to every
other filter whose key is covered by the chosen index and whose operator
is a standard one. The fold carries the option assignment of every
filter by position. -/
def assignIndexes (availableIndexes : List QIndex) (filters : List QFilter)
    (order : List QSort) (take : Int) : List (QFilter × Option QIndex) :=
  let initial := filters.map (fun f => (f, (none : Option QIndex)))
  (List.range filters.length).foldl (fun acc i =>
    match acc[i]? with
    | none => acc
    | some (f, assigned) =>
      match assigned with
      | some _ => acc
      | none =>
        let indexesOnKey := (availableIndexes.filter (fun idx => idx.key == f.key)).filter
          (fun idx => idx.validOperators.contains f.op)
        match pickBestIndex (indexesOnKey.map (fun idx =>
            (idx, indexPoints idx
              ((acc.map (fun e => e.1)).eraseIdx i |>.map (fun g => g.key))
              ((order.map (fun o => o.key)).filter (fun k => k != f.key)) take)))
        with
        | none => acc
        | some best =>
          let bestKeys := best.includeKeys ++ [best.key]
          mapWithIdx (fun j e =>
            if j = i then (e.1, some best)
            else if bestKeys.contains e.1.key
                    && dataIndexValidOperators.contains e.1.op
                    && e.2.isNone then
              (e.1, some best)
            else e) acc) initial

/-- Character membership in a string, modelling String.includes with a
single character argument (the wildcard test of line 4582). -/
def strContainsChar (s : String) (c : Char) : Bool :=
  s.data.contains c

/-- Rejection reasons of the planning stage. -/
inductive QueryReject where
  | specialOpWithoutIndex (key op : String)
  | unknownOperator (key op : String)
  | wildcardPathWithoutIndex (keys : List String)
deriving Repr, DecidableEq

/-- Filters left without an index by the assignment loop (line 4707). -/
def tableScanFiltersOf (availableIndexes : List QIndex) (filters : List QFilter)
    (order : List QSort) (take : Int) : List QFilter :=
  ((assignIndexes availableIndexes filters order take).filter
    (fun e => e.2.isNone)).map (fun e => e.1)

/-- Planning guards of LocalApi.query. The wildcard test at line 4582 is
path.includes(star): only a literal star key makes the path a wildcard
path here; dollar named keys are not detected. The three rejections are
checked in source order (lines 4709-4737) over the table scan filters,
i.e. the filters left without an index by the assignment loop. Returns
the table scan filters when the query proceeds. -/
def planQuery (path : String) (filters : List QFilter) (order : List QSort)
    (take : Int) (availableIndexes : List QIndex) :
    Except QueryReject (List QFilter) :=
  match (tableScanFiltersOf availableIndexes filters order take).find?
      (fun f => isSpecialOp f.op) with
  | some f => .error (.specialOpWithoutIndex f.key f.op)
  | none =>
    match (tableScanFiltersOf availableIndexes filters order take).find?
        (fun f => !allowedTableScanOperators.contains f.op) with
    | some f => .error (.unknownOperator f.key f.op)
    | none =>
      if strContainsChar path '*'
          && !(tableScanFiltersOf availableIndexes filters order take).isEmpty then
        .error (.wildcardPathWithoutIndex
          (((tableScanFiltersOf availableIndexes filters order take).map
              (fun f => f.key)).dedup))
      else .ok (tableScanFiltersOf availableIndexes filters order take)

/-! ## Indexed result set merging (src/unnamed/part_000 lines 4799-4834)

With two or more index result sets the source sorts them by length,
takes the shortest and probes the others. The probe at line 4820 is
set.findIndex(m goes to match.path === match.path): the predicate ignores
its argument m and compares the path of the outer match with itself, so
it holds whenever the probed set is not empty. When the probe succeeds
the merge then reads set.find(r goes to r.path === result.path).value:
if the path is in fact absent from that set, find returns undefined and
the property read raises a TypeError, which rejects the query promise.
-/

structure IndexMatch where
  path : String
  key : String
  value : JsVal
  metadata : List (String × JsVal)
deriving Repr

structure IndexResultSet where
  filterKey : String
  rows : List IndexMatch
deriving Repr

structure MergedResult where
  key : String
  path : String
  val : List (String × JsVal)
deriving Repr

/-- Comparator of the result set sort at line 4813 (shortest first; ties
return 1 in both directions). -/
def resultSetCmp (a b : IndexResultSet) : Int :=
  if a.rows.length < b.rows.length then -1 else 1

/-- Insertion sort model for the result set sort, honouring the
comparator like jsSortInsert. -/
def rsSortInsert (x : IndexResultSet) : List IndexResultSet → List IndexResultSet
  | [] => [x]
  | y :: ys => if resultSetCmp x y ≤ 0 then x :: y :: ys else y :: rsSortInsert x ys

def rsSort (l : List IndexResultSet) : List IndexResultSet :=
  l.foldr rsSortInsert []

/-- Merge step for one match of the shortest set against the other sets
(lines 4817-4831), with the faulty probe predicate of line 4820 translated
literally: the findIndex predicate compares the outer match path with
itself and therefore only tests that the probed set is not empty. -/
def mergeOneMatch (otherSets : List IndexResultSet) (filterKey : String)
    (mtch : IndexMatch) : Except String (Option MergedResult) :=
  let matchedInAllSets := otherSets.all (fun set =>
    (set.rows.findIdx? (fun _m => mtch.path == mtch.path)).isSome)
  if matchedInAllSets then do
    let base : MergedResult :=
      { key := mtch.key, path := mtch.path,
        val := (filterKey, mtch.value) :: mtch.metadata }
    let merged ← otherSets.foldlM (fun (acc : MergedResult) set => do
      match set.rows.find? (fun r => r.path == acc.path) with
      | none =>
          -- otherResult is undefined; reading otherResult.value raises
          throw "TypeError: cannot read property value of undefined"
      | some otherResult =>
          pure { acc with
                 val := acc.val ++ [(set.filterKey, otherResult.value)]
                          ++ otherResult.metadata }) base
    pure (some merged)
  else pure none

/-- Merging of all index result sets (lines 4799-4834). One set maps
directly; two or more sets go through the probe of mergeOneMatch. -/
def mergeIndexResultSets (sets : List IndexResultSet) :
    Except String (List MergedResult) :=
  match sets with
  | [] => .ok []
  | [resultSet] =>
      .ok (resultSet.rows.map (fun m =>
        { key := m.key, path := m.path,
          val := (resultSet.filterKey, m.value) :: m.metadata }))
  | _ =>
    match rsSort sets with
    | [] => .ok []
    | shortestSet :: otherSets => do
      let results ← shortestSet.rows.foldlM (fun acc m => do
        match ← mergeOneMatch otherSets shortestSet.filterKey m with
        | some r => pure (acc ++ [r])
        | none => pure acc) ([] : List MergedResult)
      pure results

/-! ## Record write pipeline: CustomStorage._writeNode (src/unnamed/part_000 lines 6611-6867)

The function is modelled one record level deep: its two inputs read from
the backend, the current stored record at the path (_readNode, line 6632)
and the keys of the dedicated child records (transaction.childrenOf,
lines 6743-6763), are passed in explicitly, and the recursive writes of
dedicated children and the deletions of dropped children are returned as
operation lists instead of being executed. The revision argument models
options.revision or the freshly generated id of line 6643; now models
Date.now().
-/

/-- Stored main node value: composite records hold the flat map of their
inline children, string and reference records hold their text, binary
records hold the bytes whose ascii85 text is stored. -/
inductive MainVal where
  | entries (l : List (String × JsVal))
  | prim (s : String)
  | bin (bytes : List Nat)
deriving Repr

/-- One stored record, the shape given to _storeNode (lines 6821-6830 and
6854-6863). -/
structure StoredNode where
  type : Nat
  value : MainVal
  revision : Nat
  revision_nr : Nat
  created : Int
  modified : Int
deriving Repr

/-- Effect of one _writeNode call: the record stored at the path itself,
the child values written to dedicated records through recursive calls
(lines 6798-6803 and 6846-6851), and the child keys whose dedicated
records are deleted (lines 6805-6813). -/
structure WriteOps where
  main : StoredNode
  childWrites : List (String × JsVal)
  childDeletes : List String
deriving Repr

/-- Array test (value instanceof Array). -/
def isArrV : JsVal → Bool
  | .arr _ => true
  | _ => false

/-- Negation of isNaN(key) as used by the merge type check at line 6635:
a key is numeric when it parses as a number. Canonical array keys are
digit strings; note that the empty string also parses (as zero), matching
isNaN of the empty string being false. -/
def isNumericKeyStr (s : String) : Bool :=
  s.data.all Char.isDigit

/-- Object.keys for the merge type check: objects enumerate their keys,
arrays their indices, path references their single path property, every
other kind has no enumerable own properties. -/
def jsKeysOf : JsVal → List String
  | .obj l => objKeys l
  | .arr l => arrStrKeys l.length
  | .pathref _ => ["path"]
  | _ => []

/-- Property deletion on a JavaScript object. -/
def alRemove (l : List (String × JsVal)) (k : String) : List (String × JsVal) :=
  l.filter (fun e => !(e.1 == k))

/-- Conversion of an array to an object with numeric properties
(lines 6649-6657). -/
def arrToEntries (items : List JsVal) : List (String × JsVal) :=
  items.enum.map (fun p => (toString p.1, p.2))

/-- Exhaustiveness check on an array key list (lines 6790-6791 and
6839-6840): every position index of the list must occur in the list as a
decimal string. -/
def isExhaustiveKeys (keys : List String) : Bool :=
  (List.range keys.length).all (fun i => keys.contains (toString i))

/-- Intermediate state of _writeNode after the per property loop (lines
6621-6732): the main node type and value, the child values that need
dedicated records, the value object as left by the loop (null markers
kept, undefined properties removed when configured), and the inline child
keys of the current record. -/
structure WnPrepared where
  mainType : Nat
  mainValue : MainVal
  childValues : List (String × JsVal)
  processed : List (String × JsVal)
  currentInlineKeys : List String
deriving Repr

/-- One step of the per property loop of _writeNode (lines 6706-6731),
threading the triple of the main node entries, the child node values and
the value object as mutated by the loop: the key is deleted from the main
node value; a null value only marks a deletion; an undefined value is
dropped from the value object under removeVoidProperties and is an error
otherwise; any other value goes inline or to a dedicated child record
according to valueFitsInline. -/
def wnLoopStep (settings : StorageSettings)
    (acc : List (String × JsVal) × List (String × JsVal) × List (String × JsVal))
    (kv : String × JsVal) :
    Except String
      (List (String × JsVal) × List (String × JsVal) × List (String × JsVal)) :=
  let mainE := alRemove acc.1 kv.1
  if isNullV kv.2 then pure (mainE, acc.2.1, acc.2.2 ++ [kv])
  else if isUndefV kv.2 then
    if settings.removeVoidProperties then
      pure (mainE, acc.2.1, acc.2.2)
    else
      throw "Cannot store undefined values"
  else
    match valueFitsInline settings.maxInlineValueSize kv.2 with
    | none => throw "TypeError: valueFitsInline on null or undefined"
    | some true => pure (mainE ++ [kv], acc.2.1, acc.2.2 ++ [kv])
    | some false => pure (mainE, acc.2.1 ++ [kv], acc.2.2 ++ [kv])

/-- Validation, main node construction and the per property loop of
_writeNode (lines 6621-6732). JavaScript enumerates integer like keys
first; the entry lists here keep their given order, which no later step
depends on. -/
def wnPrepare (settings : StorageSettings) (isRoot : Bool)
    (currentRow : Option StoredNode) (value : JsVal) (merge : Bool) :
    Except String WnPrepared := do
  -- lines 6622-6627: inline values may not get their own record; the
  -- root must be a plain object
  let fits ← match valueFitsInline settings.maxInlineValueSize value with
    | none => throw "TypeError: valueFitsInline on null or undefined"
    | some b => pure b
  if fits && !isRoot then
    throw "invalid value to store in its own node"
  if isRoot && (jsTypeof value != "object" || isArrV value) then
    throw "Invalid root node value. Must be an object"
  -- lines 6634-6641: merge kind checks
  match currentRow with
  | some row =>
    if merge then
      if row.type == VT_ARRAY && !isArrV value && jsTypeof value == "object"
          && (jsKeysOf value).any (fun k => !isNumericKeyStr k) then
        throw "Cannot merge existing array with an object"
      if isArrV value && row.type != VT_ARRAY then
        throw "Cannot merge existing object with an array"
  | none => pure ()
  -- lines 6643-6669: main node initialisation and value conversion
  let mainType0 := match currentRow with
    | some row => if row.type == VT_ARRAY then VT_ARRAY else VT_OBJECT
    | none => VT_OBJECT
  let conv : Nat × MainVal × List (String × JsVal) :=
    match value with
    | .arr items => (VT_ARRAY, MainVal.entries [], arrToEntries items)
    | .pathref p => (VT_REFERENCE, MainVal.prim p, [])
    | .binary b => (VT_BINARY, MainVal.bin b, [])
    | .str s => (VT_STRING, MainVal.prim s, [])
    | .obj l => (mainType0, MainVal.entries [], l)
    | _ => (mainType0, MainVal.entries [], [])
  let mainType := conv.1
  let mainValue0 := conv.2.1
  let working := conv.2.2
  -- lines 6671-6692: current children and value aliasing
  let currentIsObjectOrArray := match currentRow with
    | some row => row.type == VT_OBJECT || row.type == VT_ARRAY
    | none => false
  let newIsObjectOrArray := mainType == VT_OBJECT || mainType == VT_ARRAY
  let currentEntries := match currentRow with
    | some row => match row.value with
      | .entries l => l
      | _ => []
    | none => []
  let currentInlineKeys :=
    if currentIsObjectOrArray then objKeys currentEntries else []
  let mainValue1 := if currentIsObjectOrArray && newIsObjectOrArray
    then MainVal.entries currentEntries else mainValue0
  -- lines 6694-6732: property loop over the value object
  if newIsObjectOrArray then
    let mainEntries0 := match mainValue1 with
      | .entries l => l
      | _ => []
    -- lines 6697-6705: in a full overwrite, keys of the old object that
    -- the new value misses are marked for deletion with null
    let padded := if !merge then
        working ++ ((objKeys mainEntries0).filter (fun k =>
          !(working.any (fun e => e.1 == k)))).map (fun k => (k, JsVal.vnull))
      else working
    let res ← padded.foldlM (wnLoopStep settings) (mainEntries0, [], [])
    pure { mainType := mainType, mainValue := MainVal.entries res.1,
           childValues := res.2.1, processed := res.2.2,
           currentInlineKeys := currentInlineKeys }
  else
    pure { mainType := mainType, mainValue := mainValue1, childValues := [],
           processed := working, currentInlineKeys := currentInlineKeys }

/-- Insert or update branch of _writeNode (lines 6734-6866): child set
computation, the array constraint checks, and the record stored at the
path with its metadata. The two nested array checks of lines 6784-6794
appear as one combined condition, and the children moving from a
dedicated record to inline (line 6807) are appended to the delete list
(line 6808); the in operator of that filter raises a TypeError when the
main value is a primitive and dedicated children exist. -/
def wnFinish (currentRow : Option StoredNode) (dedicatedKeys : List String)
    (merge : Bool) (revision : Nat) (now : Int) (p : WnPrepared) :
    Except String WriteOps :=
  let newIsObjectOrArray := p.mainType == VT_OBJECT || p.mainType == VT_ARRAY
  let isArray := p.mainType == VT_ARRAY
  match currentRow with
  | some row =>
    let currentIsObjectOrArray := row.type == VT_OBJECT || row.type == VT_ARRAY
    -- lines 6819-6830: the updated record keeps its revision and created
    -- stamp, counts the revision number up and refreshes modified
    let mainRecord : StoredNode :=
      { type := p.mainType, value := p.mainValue, revision := row.revision,
        revision_nr := row.revision_nr + 1, created := row.created,
        modified := now }
    if currentIsObjectOrArray || newIsObjectOrArray then
      -- lines 6743-6782: affected child sets
      let childrenCurrent := p.currentInlineKeys ++ dedicatedKeys
      let childrenNew :=
        if newIsObjectOrArray then
          (objKeys p.processed).foldl (fun acc k =>
            if acc.contains k then acc else acc ++ [k])
            (if merge then childrenCurrent else [])
        else []
      let deleteKeys :=
        if merge then (p.processed.filter (fun e => isNullV e.2)).map (fun e => e.1)
        else childrenCurrent.filter (fun k => !childrenNew.contains k)
      let insertKeys := childrenNew.filter (fun k => !childrenCurrent.contains k)
      let updateKeys := childrenNew.filter (fun k =>
        childrenCurrent.contains k && !deleteKeys.contains k)
      -- lines 6784-6795: merge updates may not leave index gaps
      if isArray && merge && (!insertKeys.isEmpty || !deleteKeys.isEmpty)
          && !isExhaustiveKeys (updateKeys ++ insertKeys) then
        .error "Elements cannot be inserted beyond, or removed before the end of an array"
      else
        match p.mainValue with
        | .entries l =>
            .ok { main := mainRecord, childWrites := p.childValues,
                  childDeletes :=
                    deleteKeys ++ dedicatedKeys.filter (fun k => hasKey l k) }
        | _ =>
            if dedicatedKeys.isEmpty then
              .ok { main := mainRecord, childWrites := p.childValues,
                    childDeletes := deleteKeys }
            else
              .error "TypeError: cannot use the in operator on a primitive"
    else
      .ok { main := mainRecord, childWrites := p.childValues, childDeletes := [] }
  | none =>
    -- lines 6832-6866: creation
    if isArray && !isExhaustiveKeys ((match p.mainValue with
        | .entries l => objKeys l
        | _ => []) ++ objKeys p.childValues) then
      .error "Cannot store arrays with missing entries"
    else
      .ok { main := { type := p.mainType, value := p.mainValue,
                      revision := revision, revision_nr := 1,
                      created := now, modified := now },
            childWrites := p.childValues, childDeletes := [] }

/-- CustomStorage._writeNode, one record level deep. -/
def writeNode (settings : StorageSettings) (isRoot : Bool)
    (currentRow : Option StoredNode) (dedicatedKeys : List String)
    (value : JsVal) (merge : Bool) (revision : Nat) (now : Int) :
    Except String WriteOps :=
  match wnPrepare settings isRoot currentRow value merge with
  | .error e => .error e
  | .ok p => wnFinish currentRow dedicatedKeys merge revision now p

/-! ## Theorems -/

theorem utf16Units_le_jsUtf8Size (c : Char) : utf16Units c ≤ jsUtf8Size c := by
  unfold utf16Units jsUtf8Size
  split_ifs <;> omega

theorem jsStringLength_le_encodeStringSize (s : String) :
    jsStringLength s ≤ encodeStringSize s := by
  unfold jsStringLength encodeStringSize
  exact List.sum_le_sum (fun c _ => utf16Units_le_jsUtf8Size c)

/-- C3 counterexample. The claim states that a value of serialized size
equal to maxInlineValueSize fits inline, in particular a string of
exactly 50 UTF-8 bytes and a binary value of exactly 50 bytes under the
default limit of 50. In the code the string comparison is strict, so the
50 byte string does not fit, and a binary value never fits because the
length property read from an ArrayBuffer is undefined. -/
theorem valueFitsInline_boundary_counterexample :
    valueFitsInline storageSettingsDefault.maxInlineValueSize
        (.str (String.mk (List.replicate 50 'a'))) = some false
    ∧ encodeStringSize (String.mk (List.replicate 50 'a'))
        = storageSettingsDefault.maxInlineValueSize
    ∧ valueFitsInline storageSettingsDefault.maxInlineValueSize
        (.binary (List.replicate 50 0)) = some false
    ∧ (List.replicate 50 0).length = 50 := by
  refine ⟨by decide, by decide, rfl, by decide⟩

/-- C3 (amended). valueFitsInline returns true exactly for numbers,
booleans and dates; for strings and path references whose UTF-8 byte
size is strictly below maxInlineValueSize; and for empty arrays and
empty objects. Binary (ArrayBuffer) values never fit inline, because the
source reads the nonexistent length property of the ArrayBuffer and a
comparison against undefined is false. Null and undefined raise a
TypeError (modelled as none). -/
theorem valueFitsInline_characterisation (m : Nat) (v : JsVal) :
    valueFitsInline m v = some true ↔
      ((∃ n, v = .num n) ∨ (∃ b, v = .bool b) ∨ (∃ t, v = .date t)
        ∨ (∃ s, v = .str s ∧ encodeStringSize s < m)
        ∨ (∃ p, v = .pathref p ∧ encodeStringSize p < m)
        ∨ v = .arr [] ∨ v = .obj []) := by
  cases v with
  | str s =>
    have hle := jsStringLength_le_encodeStringSize s
    by_cases h : jsStringLength s > m
    · simp only [valueFitsInline, if_pos h]
      simp
      omega
    · simp only [valueFitsInline, if_neg h]
      simp
  | pathref p =>
    have hle := jsStringLength_le_encodeStringSize p
    by_cases h : jsStringLength p > m
    · simp only [valueFitsInline, if_pos h]
      simp
      omega
    · simp only [valueFitsInline, if_neg h]
      simp
  | arr items => simp [valueFitsInline, List.length_eq_zero]
  | obj entries => simp [valueFitsInline, List.length_eq_zero]
  | _ => simp [valueFitsInline]

theorem isNullV_eq_true {v : JsVal} : isNullV v = true ↔ v = .vnull := by
  cases v <;> simp [isNullV]

theorem isNullV_eq_false {v : JsVal} : isNullV v = false ↔ v ≠ .vnull := by
  cases v <;> simp [isNullV]

/-- C5. Trigger conditions of the event dispatcher, for every pair of old
and new values at a concrete data path: a value event fires exactly when
the values differ (compareValues is not identical, the notion of change
the dispatcher itself uses); child_added fires exactly when the old value
is null and the new one is not; child_removed exactly when the old value
is non null and the new one is null; child_changed exactly when both are
non null and the values differ. -/
theorem eventTriggerDecision (oldValue newValue : JsVal) :
    (callSubscriberTrigger "value" oldValue newValue = true ↔
       compareValues oldValue newValue ≠ .identical)
    ∧ (callSubscriberTrigger "child_added" oldValue newValue = true ↔
       (oldValue = .vnull ∧ newValue ≠ .vnull))
    ∧ (callSubscriberTrigger "child_removed" oldValue newValue = true ↔
       (oldValue ≠ .vnull ∧ newValue = .vnull))
    ∧ (callSubscriberTrigger "child_changed" oldValue newValue = true ↔
       (oldValue ≠ .vnull ∧ newValue ≠ .vnull
         ∧ compareValues oldValue newValue ≠ .identical)) := by
  have hv : strStartsWith "value" "notify_" = false := by decide
  have ha : strStartsWith "child_added" "notify_" = false := by decide
  have hr : strStartsWith "child_removed" "notify_" = false := by decide
  have hc : strStartsWith "child_changed" "notify_" = false := by decide
  refine ⟨?_, ?_, ?_, ?_⟩
  · simp [callSubscriberTrigger, hv]
  · simp [callSubscriberTrigger, ha, isNullV_eq_true, isNullV_eq_false]
  · simp [callSubscriberTrigger, hr, isNullV_eq_true, isNullV_eq_false]
  · by_cases ho : isNullV oldValue = true
    · simp [callSubscriberTrigger, hc, ho, isNullV_eq_true.mp ho, isNullV]
    · by_cases hn : isNullV newValue = true
      · simp [callSubscriberTrigger, hc, ho, hn, isNullV_eq_true.mp hn, isNullV]
      · have ho2 : oldValue ≠ .vnull := fun h => ho (by simp [h, isNullV])
        have hn2 : newValue ≠ .vnull := fun h => hn (by simp [h, isNullV])
        simp [callSubscriberTrigger, hc, ho, hn, ho2, hn2]

/-- C6 counterexample. The claim states that a failed optimistic revision
check leads to exactly one retry. Against an environment in which the
first two attempts both raise NodeRevisionError and the third commits,
the code performs three attempts and commits: the catch handler retries
on every NodeRevisionError, with no retry counter. -/
theorem transactNode_two_retries :
    transactAttempts [.revisionMismatch, .revisionMismatch, .success]
      = (3, .committed) := by
  rfl

/-- C6 (amended). transactNode retries every time the attempt fails with
a NodeRevisionError, with no bound on the number of retries: against any
run of mismatch outcomes followed by a success the code commits after all
of them, against mismatches followed by any other error it fails at that
error, and an attempt that fails with a different error is never retried
(the outcomes after it are never consumed). -/
theorem transactNode_retry_policy (pre rest : List TxOutcome)
    (hpre : ∀ o ∈ pre, o = TxOutcome.revisionMismatch) :
    transactAttempts (pre ++ TxOutcome.success :: rest) = (pre.length + 1, .committed)
    ∧ transactAttempts (pre ++ TxOutcome.otherError :: rest) = (pre.length + 1, .failed) := by
  induction pre with
  | nil => exact ⟨rfl, rfl⟩
  | cons o pre ih =>
    have ho : o = TxOutcome.revisionMismatch := hpre o (by simp)
    subst ho
    have ih2 := ih (fun o ho => hpre o (by simp [ho]))
    constructor
    · rw [List.cons_append, transactAttempts, ih2.1]
      simp
    · rw [List.cons_append, transactAttempts, ih2.2]
      simp

/-- Witness for the amended C6 theorem at a concrete run: one mismatch
followed by a success commits with two attempts. -/
theorem transactNode_retry_policy_witness :
    (∀ o ∈ [TxOutcome.revisionMismatch], o = TxOutcome.revisionMismatch)
    ∧ transactAttempts ([TxOutcome.revisionMismatch] ++ TxOutcome.success :: [])
        = (2, .committed) :=
  ⟨by decide, (transactNode_retry_policy [TxOutcome.revisionMismatch] [] (by decide)).1⟩

/-- C7 counterexample. The claim states that a query whose base path
contains a wildcard key, literal star or a dollar named key, rejects with
an index required error whenever a table scan filter remains. The
planning stage only tests for a literal star character (line 4582), so a
query on a dollar wildcard path with an unindexed standard filter and no
indexes at all is not rejected: it proceeds to the table scan with the
filter left over. -/
theorem query_dollar_wildcard_not_rejected :
    planQuery "users/$uid/posts" [{ key := "likes", op := ">" }] [] 0 []
      = .ok [{ key := "likes", op := ">" }]
    ∧ strContainsChar "users/$uid/posts" '$' = true
    ∧ strContainsChar "users/$uid/posts" '*' = false := by
  refine ⟨by rfl, by decide, by decide⟩

/-- C7 (amended). Only a literal star in the base path makes the planner
treat the query as a wildcard query: in that case, if any table scan
filter remains after index assignment (and its operator is a standard
one, so that neither earlier rejection fires), the query rejects with the
index required error before any index or record is read; and whenever
index assignment leaves no table scan filter at all, the planning stage
accepts the query. Queries on dollar named wildcard paths are not
detected by this test. -/
theorem wildcard_query_planning (path : String) (filters : List QFilter)
    (order : List QSort) (take : Int) (availableIndexes : List QIndex) :
    (∀ ts, strContainsChar path '*' = true →
      ts = tableScanFiltersOf availableIndexes filters order take →
      ts ≠ [] →
      (∀ f ∈ ts, isSpecialOp f.op = false) →
      (∀ f ∈ ts, allowedTableScanOperators.contains f.op = true) →
      planQuery path filters order take availableIndexes
        = .error (.wildcardPathWithoutIndex ((ts.map (fun f => f.key)).dedup)))
    ∧ (tableScanFiltersOf availableIndexes filters order take = [] →
       planQuery path filters order take availableIndexes = .ok []) := by
  constructor
  · intro ts hstar hts hne hspecial hops
    unfold planQuery
    have h1 : (tableScanFiltersOf availableIndexes filters order take).find?
          (fun f => isSpecialOp f.op) = none := by
      rw [List.find?_eq_none]
      intro f hf
      simp [hspecial f (hts ▸ hf)]
    have h2 : (tableScanFiltersOf availableIndexes filters order take).find?
          (fun f => !allowedTableScanOperators.contains f.op) = none := by
      rw [List.find?_eq_none]
      intro f hf
      simpa using hops f (hts ▸ hf)
    rw [h1, h2, hstar]
    have hne2 : (tableScanFiltersOf availableIndexes filters order take).isEmpty
        = false := by
      rw [List.isEmpty_eq_false_iff_exists_mem]
      cases hts2 : tableScanFiltersOf availableIndexes filters order take with
      | nil => exact absurd (hts.trans hts2) hne
      | cons a l => exact ⟨a, by simp⟩
    simp only [hne2]
    simp [hts]
  · intro hempty
    unfold planQuery
    rw [hempty]
    simp

/-- Witness for the amended C7 theorem: a star wildcard query with one
unindexed standard filter is rejected with the index required error, and
the same query is accepted once an index on the filter key exists. -/
theorem wildcard_query_planning_witness :
    planQuery "users/*/posts" [{ key := "likes", op := ">" }] [] 0 []
      = .error (.wildcardPathWithoutIndex ["likes"])
    ∧ planQuery "users/*/posts" [{ key := "likes", op := ">" }] [] 0
        [{ key := "likes", typeName := "normal", includeKeys := [],
           validOperators := ["<", "<=", "==", "!=", ">=", ">"] }]
      = .ok [] := by
  constructor
  · exact (wildcard_query_planning "users/*/posts"
      [{ key := "likes", op := ">" }] [] 0 []).1
      [{ key := "likes", op := ">" }] (by decide) (by rfl) (by decide)
      (by decide) (by decide)
  · exact (wildcard_query_planning "users/*/posts"
      [{ key := "likes", op := ">" }] [] 0
      [{ key := "likes", typeName := "normal", includeKeys := [],
         validOperators := ["<", "<=", "==", "!=", ">=", ">"] }]).2 (by rfl)

/-- C8. The merge of two index result sets probes the other sets with
the predicate of line 4820, which compares the path of the outer match
with itself instead of with the probed entry. Against two singleton
result sets with different record paths, the true intersection is empty,
so the claim requires an empty merged result; the code instead treats the
probe as successful because the other set is not empty, then crashes with
a TypeError when it reads the value property of the failed find. -/
theorem indexMerge_ignores_probe_argument :
    mergeIndexResultSets
      [{ filterKey := "a",
         rows := [{ path := "posts/a", key := "a", value := .num 1, metadata := [] }] },
       { filterKey := "b",
         rows := [{ path := "posts/b", key := "b", value := .num 2, metadata := [] }] }]
      = .error "TypeError: cannot read property value of undefined"
    ∧ ("posts/a" = "posts/b") = False := by
  exact ⟨rfl, by simp⟩

/-- C9. Resolution order of the pending lock queue. The sort comparator
of lines 5497-5507 returns the boolean a.requested before b.requested
where a number is expected; ECMAScript converts it with ToNumber, so an
older request compares as 1, that is after the newer one, and the
comparator is inconsistent (the swapped comparison gives a tie). In the
comparator honouring sort model this processes same priority requests
newest first: after a granted write lock (tid 3) is released with an
older write request (tid 1, requested at 1) and a newer read request
(tid 2, requested at 2) pending, the newer read is granted and the older
write stays pending, where first in first out resolution would grant the
write. The second conjunct records the comparator value that orders the
older request after the newer one. -/
theorem lockQueue_not_fifo :
    ((releaseLock
        (requestLock
          (requestLock
            (requestLock lockerInit "" 3 true false 0).1
            "users/a" 1 true false 1).1
          "users/b" 2 false false 2).1
        1 true).locks.map (fun l => (l.tid, l.forWriting, l.state)))
      = [(1, true, LockState.pending), (2, false, LockState.locked)]
    ∧ lockCmp
        { id := 2, path := "users/a", tid := 1, forWriting := true,
          priority := false, requested := 1, state := .pending }
        { id := 3, path := "users/b", tid := 2, forWriting := false,
          priority := false, requested := 2, state := .pending } = 1 := by
  exact ⟨by rfl, by rfl⟩

/-- C2. Metadata of the record stored by _writeNode: whenever the write
commits, an existing record keeps its created stamp, counts revision_nr
up by one and refreshes modified to the current time, while a freshly
created record starts with revision_nr one and has both stamps set to the
current time. -/
theorem writeNode_metadata (settings : StorageSettings) (isRoot : Bool)
    (dedicatedKeys : List String) (value : JsVal) (merge : Bool)
    (revision : Nat) (now : Int) :
    (∀ row ops,
        writeNode settings isRoot (some row) dedicatedKeys value merge revision now
          = .ok ops →
        ops.main.revision_nr = row.revision_nr + 1
        ∧ ops.main.created = row.created
        ∧ ops.main.modified = now)
    ∧ (∀ ops,
        writeNode settings isRoot none dedicatedKeys value merge revision now
          = .ok ops →
        ops.main.revision_nr = 1 ∧ ops.main.created = now
        ∧ ops.main.modified = now) := by
  constructor
  · intro row ops h
    unfold writeNode at h
    cases hp : wnPrepare settings isRoot (some row) value merge with
    | error e => rw [hp] at h; exact absurd h (by simp)
    | ok p =>
      rw [hp] at h
      simp only [wnFinish] at h
      repeat' split at h
      all_goals first
        | (injection h with h2; subst h2; exact ⟨rfl, rfl, rfl⟩)
        | simp at h
  · intro ops h
    unfold writeNode at h
    cases hp : wnPrepare settings isRoot none value merge with
    | error e => rw [hp] at h; exact absurd h (by simp)
    | ok p =>
      rw [hp] at h
      simp only [wnFinish] at h
      repeat' split at h
      all_goals first
        | (injection h with h2; subst h2; exact ⟨rfl, rfl, rfl⟩)
        | simp at h

/-- Witness for the C2 theorem: a committed merge update of an existing
object record with revision_nr 7 and created 100 stores revision_nr 8,
created 100 and modified 500. -/
theorem writeNode_metadata_witness :
    writeNode storageSettingsDefault false
        (some { type := VT_OBJECT, value := MainVal.entries [("a", .num 1)],
                revision := 4, revision_nr := 7, created := 100, modified := 200 })
        [] (.obj [("b", .str "x")]) true 9 500
      = .ok { main := { type := VT_OBJECT,
                        value := MainVal.entries [("a", .num 1), ("b", .str "x")],
                        revision := 4, revision_nr := 8, created := 100,
                        modified := 500 },
              childWrites := [], childDeletes := [] }
    ∧ ({ type := VT_OBJECT,
         value := MainVal.entries [("a", .num 1), ("b", .str "x")],
         revision := 4, revision_nr := 8, created := 100,
         modified := 500 } : StoredNode).revision_nr = 7 + 1 := by
  have h : writeNode storageSettingsDefault false
      (some { type := VT_OBJECT, value := MainVal.entries [("a", .num 1)],
              revision := 4, revision_nr := 7, created := 100, modified := 200 })
      [] (.obj [("b", .str "x")]) true 9 500
      = .ok { main := { type := VT_OBJECT,
                        value := MainVal.entries [("a", .num 1), ("b", .str "x")],
                        revision := 4, revision_nr := 8, created := 100,
                        modified := 500 },
              childWrites := [], childDeletes := [] } := by rfl
  refine ⟨h, ?_⟩
  exact ((writeNode_metadata storageSettingsDefault false [] (.obj [("b", .str "x")])
      true 9 500).1
    { type := VT_OBJECT, value := MainVal.entries [("a", .num 1)],
      revision := 4, revision_nr := 7, created := 100, modified := 200 }
    { main := { type := VT_OBJECT,
                value := MainVal.entries [("a", .num 1), ("b", .str "x")],
                revision := 4, revision_nr := 8, created := 100, modified := 500 },
      childWrites := [], childDeletes := [] } h).1

theorem contains_eq_true_iff_mem (l : List String) (a : String) :
    l.contains a = true ↔ a ∈ l :=
  ⟨List.mem_of_elem_eq_true, List.elem_eq_true_of_mem⟩

theorem contains_eq_false_iff (l : List String) (a : String) :
    l.contains a = false ↔ a ∉ l := by
  constructor
  · intro h hm
    rw [(contains_eq_true_iff_mem l a).mpr hm] at h
    cases h
  · intro h
    cases hc : l.contains a
    · rfl
    · exact absurd ((contains_eq_true_iff_mem l a).mp hc) h

theorem foldl_pushKeys (V : List String) : ∀ C : List String, V.Nodup →
    V.foldl (fun acc k => if acc.contains k then acc else acc ++ [k]) C
      = C ++ V.filter (fun k => !C.contains k) := by
  induction V with
  | nil => intro C _; simp
  | cons k V ih =>
    intro C hnd
    have hk_notmem : k ∉ V := (List.nodup_cons.mp hnd).1
    have hnd2 : V.Nodup := (List.nodup_cons.mp hnd).2
    rw [List.foldl_cons]
    by_cases hk : C.contains k = true
    · rw [if_pos hk, ih C hnd2]
      have hkC : k ∈ C := (contains_eq_true_iff_mem C k).mp hk
      have hfc : (k :: V).filter (fun x => !C.contains x)
          = V.filter (fun x => !C.contains x) := by
        simp [List.filter_cons, hkC]
      rw [hfc]
    · rw [if_neg hk, ih (C ++ [k]) hnd2]
      have hkC : k ∉ C := by
        rcases hc : C.contains k with _ | _
        · exact (contains_eq_false_iff C k).mp hc
        · exact absurd hc hk
      have h1 : V.filter (fun x => !(C ++ [k]).contains x)
          = V.filter (fun x => !C.contains x) := by
        apply List.filter_congr
        intro x hx
        have hxk : x ≠ k := fun h => hk_notmem (h ▸ hx)
        have e1 : (C ++ [k]).contains x = C.contains x := by
          cases hc : C.contains x
          · rw [contains_eq_false_iff] at hc ⊢
            simp [hxk, hc]
          · exact (contains_eq_true_iff_mem _ _).mpr
              (List.mem_append.mpr (Or.inl ((contains_eq_true_iff_mem _ _).mp hc)))
        rw [e1]
      rw [h1]
      simp [List.filter_cons, hkC, List.append_assoc]

theorem valueFitsInline_isSome (m : Nat) (v : JsVal)
    (h1 : isNullV v = false) (h2 : isUndefV v = false) :
    ∃ b, valueFitsInline m v = some b := by
  cases v
  case vnull => simp [isNullV] at h1
  case vundef => simp [isUndefV] at h2
  all_goals exact ⟨_, rfl⟩

theorem wnLoop_no_undef (settings : StorageSettings) (u : List (String × JsVal)) :
    (∀ e ∈ u, e.2 ≠ .vundef) →
    ∀ accM accC accP,
    ∃ M C2, u.foldlM (wnLoopStep settings) (accM, accC, accP)
      = .ok (M, C2, accP ++ u) := by
  induction u with
  | nil =>
    intro _ accM accC accP
    exact ⟨accM, accC, by simp only [List.foldlM_nil, List.append_nil]; rfl⟩
  | cons kv rest ih =>
    intro hu accM accC accP
    have hv : kv.2 ≠ .vundef := hu kv (by simp)
    have hv2 : isUndefV kv.2 = false := by
      cases hkv : kv.2 <;> first | rfl | exact absurd hkv hv
    rw [List.foldlM_cons]
    by_cases hn : isNullV kv.2 = true
    · simp only [wnLoopStep, hn, if_true, pure_bind]
      obtain ⟨M, C2, hres⟩ := ih (fun e he => hu e (List.mem_cons_of_mem kv he))
        (alRemove accM kv.1) accC (accP ++ [kv])
      exact ⟨M, C2, by rw [hres, List.append_assoc]; rfl⟩
    · have hn2 : isNullV kv.2 = false := by
        cases hb : isNullV kv.2
        · rfl
        · exact absurd hb hn
      obtain ⟨b, hb⟩ := valueFitsInline_isSome settings.maxInlineValueSize kv.2 hn2 hv2
      cases b with
      | true =>
        simp only [wnLoopStep, hn2, hv2, hb, Bool.false_eq_true, if_false, pure_bind]
        obtain ⟨M, C2, hres⟩ := ih (fun e he => hu e (List.mem_cons_of_mem kv he))
          (alRemove accM kv.1 ++ [kv]) accC (accP ++ [kv])
        exact ⟨M, C2, by rw [hres, List.append_assoc]; rfl⟩
      | false =>
        simp only [wnLoopStep, hn2, hv2, hb, Bool.false_eq_true, if_false, pure_bind]
        obtain ⟨M, C2, hres⟩ := ih (fun e he => hu e (List.mem_cons_of_mem kv he))
          (alRemove accM kv.1) (accC ++ [kv]) (accP ++ [kv])
        exact ⟨M, C2, by rw [hres, List.append_assoc]; rfl⟩

theorem wnPrepare_merge_array (settings : StorageSettings) (row : StoredNode)
    (I u : List (String × JsVal))
    (hrow : row.type = VT_ARRAY) (hval : row.value = .entries I)
    (hne : u ≠ [])
    (hkeys : ∀ e ∈ u, isNumericKeyStr e.1 = true)
    (hundef : ∀ e ∈ u, e.2 ≠ .vundef) :
    ∃ M C2, wnPrepare settings false (some row) (.obj u) true
      = .ok { mainType := VT_ARRAY, mainValue := .entries M,
              childValues := C2, processed := u,
              currentInlineKeys := objKeys I } := by
  have hlen : decide (u.length = 0) = false := by
    cases u
    · exact absurd rfl hne
    · simp
  have hany : (objKeys u).any (fun k => !isNumericKeyStr k) = false := by
    rw [List.any_eq_false]
    intro k hk
    obtain ⟨e, he, rfl⟩ := List.mem_map.mp hk
    simp [hkeys e he]
  obtain ⟨M, C2, hloop⟩ := wnLoop_no_undef settings u hundef I [] []
  rw [List.nil_append] at hloop
  refine ⟨M, C2, ?_⟩
  unfold wnPrepare
  simp only [valueFitsInline, hlen, hrow, hval, isArrV, jsTypeof, jsKeysOf, hany,
    VT_OBJECT, VT_ARRAY, pure_bind, Bool.false_and, Bool.and_false, Bool.not_false,
    Bool.and_true, Bool.true_and, beq_self_eq_true, Bool.not_true, Bool.false_or,
    Bool.true_or, Bool.or_true, if_false, if_true, Bool.false_eq_true]
  rw [hloop]
  rfl

theorem not_isEmpty_eq_true_iff (l : List String) : (!l.isEmpty) = true ↔ l ≠ [] := by
  cases l <;> simp

theorem isEmpty_eq_false_iff (l : List String) : l.isEmpty = false ↔ l ≠ [] := by
  cases l <;> simp

/-- C4 (amended). For a merge update u on an existing array record with
inline children I and dedicated child keys D, the write fails with the
array constraint error exactly when the update touches the child set at
all, meaning it mentions a key outside the current key set or writes null
to some key, and the surviving keys (current keys not deleted by a null)
together with the newly mentioned keys do not form an exhaustive 0..n-1
sequence. In particular writing null to a key that is not a current index
counts as an insertion of that key and is rejected even though the stored
key set would be unchanged and exhaustive; removal of only the trailing
index passes the check; and a failed write returns the error before any
store or delete operation is emitted. -/
theorem writeNode_array_merge_constraint
    (settings : StorageSettings) (row : StoredNode) (I u : List (String × JsVal))
    (D : List String) (rev : Nat) (now : Int)
    (hrow : row.type = VT_ARRAY) (hval : row.value = .entries I)
    (hne : u ≠ [])
    (hkeys : ∀ e ∈ u, isNumericKeyStr e.1 = true)
    (hundef : ∀ e ∈ u, e.2 ≠ .vundef)
    (hnodupV : (objKeys u).Nodup) :
    ((∃ msg, writeNode settings false (some row) D (.obj u) true rev now
        = .error msg)
      ↔ (((objKeys u).filter (fun k => !((objKeys I ++ D).contains k)) ≠ []
            ∨ (u.filter (fun e => isNullV e.2)).map (fun e => e.1) ≠ [])
          ∧ isExhaustiveKeys
              (((objKeys I ++ D).filter (fun k =>
                  !(((u.filter (fun e => isNullV e.2)).map (fun e => e.1)).contains k)))
                ++ (objKeys u).filter (fun k => !((objKeys I ++ D).contains k)))
              = false)) := by
  obtain ⟨M, C2, hp⟩ := wnPrepare_merge_array settings row I u hrow hval hne hkeys hundef
  unfold writeNode
  rw [hp]
  unfold wnFinish
  simp only [hrow, VT_OBJECT, VT_ARRAY,
    show ((2 : Nat) == 1) = false from rfl, show ((2 : Nat) == 2) = true from rfl,
    Bool.false_or, Bool.true_or, Bool.or_true, Bool.or_self, Bool.true_and,
    Bool.and_true, eq_self_iff_true, if_true, ite_true]
  rw [foldl_pushKeys (objKeys u) (objKeys I ++ D) hnodupV]
  have e1 : (objKeys I ++ D).filter (fun k => !((objKeys I ++ D).contains k)) = [] := by
    rw [List.filter_eq_nil_iff]
    intro k hk
    rw [(contains_eq_true_iff_mem _ _).mpr hk]
    decide
  have e2 : ((objKeys u).filter (fun k => !((objKeys I ++ D).contains k))).filter
      (fun k => !((objKeys I ++ D).contains k))
      = (objKeys u).filter (fun k => !((objKeys I ++ D).contains k)) := by
    apply List.filter_eq_self.mpr
    intro k hk
    exact (List.mem_filter.mp hk).2
  have e3 : (objKeys I ++ D).filter (fun k => (objKeys I ++ D).contains k
        && !(((u.filter (fun e => isNullV e.2)).map (fun e => e.1)).contains k))
      = (objKeys I ++ D).filter (fun k =>
          !(((u.filter (fun e => isNullV e.2)).map (fun e => e.1)).contains k)) := by
    apply List.filter_congr
    intro k hk
    rw [(contains_eq_true_iff_mem _ _).mpr hk, Bool.true_and]
  have e4 : ((objKeys u).filter (fun k => !((objKeys I ++ D).contains k))).filter
      (fun k => (objKeys I ++ D).contains k
        && !(((u.filter (fun e => isNullV e.2)).map (fun e => e.1)).contains k)) = [] := by
    rw [List.filter_eq_nil_iff]
    intro k hk
    have hkc := (List.mem_filter.mp hk).2
    cases hc : (objKeys I ++ D).contains k
    · simp
    · rw [hc] at hkc; simp at hkc
  have eIns : List.filter (fun k => !((objKeys I ++ D).contains k))
      ((objKeys I ++ D) ++ List.filter (fun k => !((objKeys I ++ D).contains k)) (objKeys u))
      = List.filter (fun k => !((objKeys I ++ D).contains k)) (objKeys u) := by
    rw [List.filter_append, e1, e2, List.nil_append]
  have eUpd : List.filter (fun k => (objKeys I ++ D).contains k
        && !(((u.filter (fun e => isNullV e.2)).map (fun e => e.1)).contains k))
      ((objKeys I ++ D) ++ List.filter (fun k => !((objKeys I ++ D).contains k)) (objKeys u))
      = List.filter (fun k =>
          !(((u.filter (fun e => isNullV e.2)).map (fun e => e.1)).contains k))
          (objKeys I ++ D) := by
    rw [List.filter_append, e3, e4, List.append_nil]
  rw [eIns, eUpd]
  constructor
  · rintro ⟨msg, hmsg⟩
    split at hmsg
    · rename_i hcond
      simp only [Bool.true_and, Bool.and_eq_true, Bool.or_eq_true,
        not_isEmpty_eq_true_iff, isEmpty_eq_false_iff, Bool.not_eq_true'] at hcond
      exact ⟨hcond.1, hcond.2⟩
    · exact absurd hmsg (by simp)
  · rintro ⟨h1, h2⟩
    refine ⟨"Elements cannot be inserted beyond, or removed before the end of an array", ?_⟩
    rw [if_pos]
    simp only [Bool.true_and, Bool.and_eq_true, Bool.or_eq_true,
      not_isEmpty_eq_true_iff, isEmpty_eq_false_iff, Bool.not_eq_true']
    exact ⟨h1, h2⟩

/-- C4 (counterexample). A merge update of key 5 with null on the stored
array [u, v, w] leaves the resulting child key set 0, 1, 2 untouched and
exhaustive, because key 5 neither exists nor survives (null deletes it);
the claimed characterisation therefore requires the write to succeed. The
code still rejects it: key 5 counts both as an inserted key (it is new)
and as a deleted key (its value is null), and the gap check runs on
updateKeys plus insertKeys, which is 0, 1, 2, 5 and is not exhaustive. -/
theorem writeNode_array_merge_counterexample :
    writeNode storageSettingsDefault false
      (some { type := VT_ARRAY,
              value := MainVal.entries
                [("0", JsVal.str "u"), ("1", JsVal.str "v"), ("2", JsVal.str "w")],
              revision := 4, revision_nr := 7, created := 100, modified := 200 })
      [] (JsVal.obj [("5", JsVal.vnull)]) true 9 500
      = Except.error "Elements cannot be inserted beyond, or removed before the end of an array"
    ∧ isExhaustiveKeys ["0", "1", "2"] = true
    ∧ (["0", "1", "2"].contains "5") = false := by
  refine ⟨rfl, by decide, by decide⟩

/-- C4 witness: the amended characterisation applied to the concrete
counterexample input shows the error concretely. -/
theorem writeNode_array_merge_constraint_witness :
    ∃ msg, writeNode storageSettingsDefault false
      (some { type := VT_ARRAY,
              value := MainVal.entries
                [("0", JsVal.str "u"), ("1", JsVal.str "v"), ("2", JsVal.str "w")],
              revision := 4, revision_nr := 7, created := 100, modified := 200 })
      [] (JsVal.obj [("5", JsVal.vnull)]) true 9 500 = Except.error msg :=
  (writeNode_array_merge_constraint storageSettingsDefault
      { type := VT_ARRAY,
        value := MainVal.entries
          [("0", JsVal.str "u"), ("1", JsVal.str "v"), ("2", JsVal.str "w")],
        revision := 4, revision_nr := 7, created := 100, modified := 200 }
      [("0", JsVal.str "u"), ("1", JsVal.str "v"), ("2", JsVal.str "w")]
      [("5", JsVal.vnull)] [] 9 500 rfl rfl (by simp) (by decide)
      (by intro e he; rw [List.mem_singleton] at he; subst he;
          exact fun h => JsVal.noConfusion h)
      (by decide)).mpr (by decide)

/-- Characterisation of a passing _allowLock check: no granted lock of
another transaction conflicts with the request. -/
theorem allowLock_none_iff (locks : List NLock) (tid : Nat) (fw : Bool) :
    allowLock locks tid fw = none ↔
      ∀ o ∈ locks, ¬(o.tid ≠ tid ∧ o.state = LockState.locked
        ∧ (fw = true ∨ o.forWriting = true)) := by
  unfold allowLock
  rw [List.find?_eq_none]
  constructor
  · intro h o ho
    have h2 := h o ho
    simpa [bne_iff_ne, and_assoc] using h2
  · intro h o ho
    have h2 := h o ho
    simpa [bne_iff_ne, and_assoc] using h2

/-- Granting a lock never changes id, transaction or mode of any queue
entry. -/
theorem grantLock_attr (st : NodeLocker) (i : Nat) :
    ∀ x ∈ (grantLock st i).locks, ∃ y ∈ st.locks,
      x.id = y.id ∧ x.tid = y.tid ∧ x.forWriting = y.forWriting := by
  intro x hx
  unfold grantLock at hx
  simp only [List.mem_map] at hx
  obtain ⟨y, hy, hfy⟩ := hx
  refine ⟨y, hy, ?_⟩
  subst hfy
  split <;> exact ⟨rfl, rfl, rfl⟩

/-- Granting a lock keeps the id list of the queue unchanged. -/
theorem grantLock_map_id (st : NodeLocker) (i : Nat) :
    (grantLock st i).locks.map NLock.id = st.locks.map NLock.id := by
  unfold grantLock
  show (st.locks.map _).map NLock.id = st.locks.map NLock.id
  rw [List.map_map]
  apply List.map_congr_left
  intro x _
  show NLock.id (if x.id = i then _ else x) = x.id
  split <;> rfl

/-- Core preservation step: granting a pending request that passed the
_allowLock check keeps the single writer exclusion. The attribute
hypothesis says every queue entry carrying the granted id belongs to the
requesting transaction with the requested mode. -/
theorem grantLock_WE (st : NodeLocker) (i tid : Nat) (fw : Bool)
    (hattr : ∀ x ∈ st.locks, x.id = i → x.tid = tid ∧ x.forWriting = fw)
    (hWE : WriteExclusive st)
    (hallow : allowLock st.locks tid fw = none) :
    WriteExclusive (grantLock st i) := by
  have hA := (allowLock_none_iff st.locks tid fw).mp hallow
  intro w hw hwl hwf l hl hll
  unfold grantLock at hw hl
  simp only [List.mem_map] at hw hl
  obtain ⟨w0, hw0, hfw⟩ := hw
  obtain ⟨l0, hl0, hfl⟩ := hl
  subst hfw
  subst hfl
  by_cases hwi : w0.id = i
  · by_cases hli : l0.id = i
    · simp only [if_pos hwi, if_pos hli]
      show l0.tid = w0.tid
      rw [(hattr l0 hl0 hli).1, (hattr w0 hw0 hwi).1]
    · simp only [if_pos hwi] at hwf ⊢
      simp only [if_neg hli] at hll ⊢
      have hfww : fw = true := by rw [← (hattr w0 hw0 hwi).2]; exact hwf
      show l0.tid = w0.tid
      rw [(hattr w0 hw0 hwi).1]
      by_contra hne
      exact absurd ⟨hne, hll, Or.inl hfww⟩ (hA l0 hl0)
  · by_cases hli : l0.id = i
    · simp only [if_neg hwi] at hwl hwf ⊢
      simp only [if_pos hli]
      show l0.tid = w0.tid
      rw [(hattr l0 hl0 hli).1]
      by_contra hne
      exact absurd ⟨fun hh => hne hh.symm, hwl, Or.inr hwf⟩ (hA w0 hw0)
    · simp only [if_neg hwi] at hwl hwf ⊢
      simp only [if_neg hli] at hll ⊢
      exact hWE w0 hw0 hwl hwf l0 hl0 hll

/-- Distinct ids identify queue entries uniquely. -/
theorem nodup_id_inj {locks : List NLock} (h : (locks.map NLock.id).Nodup)
    {x y : NLock} (hx : x ∈ locks) (hy : y ∈ locks) (hid : x.id = y.id) :
    x = y :=
  List.inj_on_of_nodup_map h hx hy hid

/-- Membership after one insertion step of the sort model. -/
theorem mem_jsSortInsert {cmp : NLock → NLock → Int} {x y : NLock} :
    ∀ {l : List NLock}, y ∈ jsSortInsert cmp x l → y = x ∨ y ∈ l := by
  intro l
  induction l with
  | nil =>
    intro h
    simp only [jsSortInsert, List.mem_singleton] at h
    exact Or.inl h
  | cons z zs ih =>
    intro h
    simp only [jsSortInsert] at h
    split at h
    · rcases List.mem_cons.mp h with h1 | h2
      · exact Or.inl h1
      · exact Or.inr h2
    · rcases List.mem_cons.mp h with h1 | h2
      · exact Or.inr (h1 ▸ List.mem_cons_self z zs)
      · rcases ih h2 with h3 | h4
        · exact Or.inl h3
        · exact Or.inr (List.mem_cons_of_mem z h4)

/-- The sort model only permutes its input. -/
theorem mem_jsSort {cmp : NLock → NLock → Int} {y : NLock} :
    ∀ {l : List NLock}, y ∈ jsSort cmp l → y ∈ l := by
  intro l
  induction l with
  | nil => intro h; exact absurd h (by simp [jsSort])
  | cons x xs ih =>
    intro h
    unfold jsSort at h
    rw [List.foldr_cons] at h
    rcases mem_jsSortInsert h with h1 | h2
    · rw [h1]; exact List.mem_cons_self x xs
    · exact List.mem_cons_of_mem x (ih h2)

/-- The guarded grant fold of _processLockQueue keeps the exclusion
invariant: every grant it performs passes the _allowLock check first. -/
theorem foldGrant_WE (q : List NLock) (acc : NodeLocker)
    (hWE : WriteExclusive acc)
    (hattr : ∀ l ∈ q, ∀ x ∈ acc.locks, x.id = l.id →
      x.tid = l.tid ∧ x.forWriting = l.forWriting) :
    WriteExclusive (q.foldl (fun acc2 l =>
      if (allowLock acc2.locks l.tid l.forWriting).isNone then grantLock acc2 l.id
      else acc2) acc) := by
  induction q generalizing acc with
  | nil => exact hWE
  | cons l q ih =>
    rw [List.foldl_cons]
    by_cases hg : (allowLock acc.locks l.tid l.forWriting).isNone = true
    · rw [if_pos hg]
      apply ih
      · exact grantLock_WE acc l.id l.tid l.forWriting
          (hattr l (List.mem_cons_self l q)) hWE
          (Option.isNone_iff_eq_none.mp hg)
      · intro l2 hl2 x hx hxid
        obtain ⟨y, hy, hid, htid, hfw⟩ := grantLock_attr acc l.id x hx
        have h2 := hattr l2 (List.mem_cons_of_mem l hl2) y hy (hid ▸ hxid)
        exact ⟨htid.trans h2.1, hfw.trans h2.2⟩
    · rw [if_neg hg]
      exact ih acc hWE (fun l2 hl2 x hx hxid =>
        hattr l2 (List.mem_cons_of_mem l hl2) x hx hxid)

/-- The grant fold never changes id, transaction or mode of any entry. -/
theorem foldGrant_attr (q : List NLock) (acc : NodeLocker) :
    ∀ x ∈ (q.foldl (fun acc2 l =>
      if (allowLock acc2.locks l.tid l.forWriting).isNone then grantLock acc2 l.id
      else acc2) acc).locks,
      ∃ y ∈ acc.locks, x.id = y.id ∧ x.tid = y.tid ∧ x.forWriting = y.forWriting := by
  induction q generalizing acc with
  | nil => intro x hx; exact ⟨x, hx, rfl, rfl, rfl⟩
  | cons l q ih =>
    intro x hx
    rw [List.foldl_cons] at hx
    by_cases hg : (allowLock acc.locks l.tid l.forWriting).isNone = true
    · rw [if_pos hg] at hx
      obtain ⟨y, hy, h1, h2, h3⟩ := ih (grantLock acc l.id) x hx
      obtain ⟨z, hz, g1, g2, g3⟩ := grantLock_attr acc l.id y hy
      exact ⟨z, hz, h1.trans g1, h2.trans g2, h3.trans g3⟩
    · rw [if_neg hg] at hx
      exact ih acc x hx

/-- The grant fold keeps the id list of the queue unchanged. -/
theorem foldGrant_map_id (q : List NLock) (acc : NodeLocker) :
    (q.foldl (fun acc2 l =>
      if (allowLock acc2.locks l.tid l.forWriting).isNone then grantLock acc2 l.id
      else acc2) acc).locks.map NLock.id = acc.locks.map NLock.id := by
  induction q generalizing acc with
  | nil => rfl
  | cons l q ih =>
    rw [List.foldl_cons]
    by_cases hg : (allowLock acc.locks l.tid l.forWriting).isNone = true
    · rw [if_pos hg, ih (grantLock acc l.id), grantLock_map_id]
    · rw [if_neg hg]; exact ih acc

/-- The grant fold keeps the id counter unchanged. -/
theorem foldGrant_nextId (q : List NLock) (acc : NodeLocker) :
    (q.foldl (fun acc2 l =>
      if (allowLock acc2.locks l.tid l.forWriting).isNone then grantLock acc2 l.id
      else acc2) acc).nextId = acc.nextId := by
  induction q generalizing acc with
  | nil => rfl
  | cons l q ih =>
    rw [List.foldl_cons]
    by_cases hg : (allowLock acc.locks l.tid l.forWriting).isNone = true
    · rw [if_pos hg]; exact ih (grantLock acc l.id)
    · rw [if_neg hg]; exact ih acc

/-- _processLockQueue preserves the lock queue invariant. -/
theorem processLockQueue_inv (st : NodeLocker) (h : lockerInv st) :
    lockerInv (processLockQueue st) := by
  obtain ⟨hWE, hnodup, hbound⟩ := h
  unfold processLockQueue
  show lockerInv ((jsSort lockCmp (st.locks.filter (fun l =>
    l.state == LockState.pending))).foldl _ st)
  refine ⟨?_, ?_, ?_⟩
  · apply foldGrant_WE _ _ hWE
    intro l hl x hx hxid
    have hlm : l ∈ st.locks := List.mem_of_mem_filter (mem_jsSort hl)
    have hxl : x = l := nodup_id_inj hnodup hx hlm hxid
    rw [hxl]
    exact ⟨rfl, rfl⟩
  · rw [foldGrant_map_id]
    exact hnodup
  · intro l hl
    obtain ⟨y, hy, h1, _, _⟩ := foldGrant_attr _ st l hl
    rw [foldGrant_nextId]
    rw [h1]
    exact hbound y hy

/-- Appending a fresh pending request preserves the invariant. -/
theorem append_pending_inv (st : NodeLocker) (lk : NLock)
    (hstate : lk.state = LockState.pending) (hid : lk.id = st.nextId + 1)
    (h : lockerInv st) :
    lockerInv { locks := st.locks ++ [lk], nextId := st.nextId + 1 } := by
  obtain ⟨hWE, hnodup, hbound⟩ := h
  refine ⟨?_, ?_, ?_⟩
  · intro w hw hwl hwf l hl hll
    rcases List.mem_append.mp hw with hw1 | hw2
    · rcases List.mem_append.mp hl with hl1 | hl2
      · exact hWE w hw1 hwl hwf l hl1 hll
      · rw [List.mem_singleton.mp hl2, hstate] at hll
        exact absurd hll (by decide)
    · rw [List.mem_singleton.mp hw2, hstate] at hwl
      exact absurd hwl (by decide)
  · show ((st.locks ++ [lk]).map NLock.id).Nodup
    rw [List.map_append, List.nodup_append]
    refine ⟨hnodup, List.nodup_singleton _, ?_⟩
    intro a ha hb
    rw [List.map_singleton, List.mem_singleton] at hb
    obtain ⟨x, hx, hxa⟩ := List.mem_map.mp ha
    have hxb := hbound x hx
    have hxe : x.id = st.nextId + 1 := by rw [hxa, hb, hid]
    omega
  · intro l hl
    rcases List.mem_append.mp hl with h1 | h2
    · exact Nat.le_trans (hbound l h1) (Nat.le_succ _)
    · rw [List.mem_singleton.mp h2, hid]

/-- Granting a compatible request preserves the invariant. -/
theorem grantLock_inv (st : NodeLocker) (i tid : Nat) (fw : Bool)
    (hattr : ∀ x ∈ st.locks, x.id = i → x.tid = tid ∧ x.forWriting = fw)
    (hallow : allowLock st.locks tid fw = none)
    (h : lockerInv st) : lockerInv (grantLock st i) := by
  obtain ⟨hWE, hnodup, hbound⟩ := h
  refine ⟨grantLock_WE st i tid fw hattr hWE hallow, ?_, ?_⟩
  · rw [grantLock_map_id]
    exact hnodup
  · intro l hl
    obtain ⟨y, hy, h1, _, _⟩ := grantLock_attr st i l hl
    show l.id ≤ st.nextId
    rw [h1]
    exact hbound y hy

/-- NodeLocker.lock preserves the invariant. -/
theorem requestLock_inv (st : NodeLocker) (path : String) (tid : Nat)
    (fw pri : Bool) (req : Nat) (h : lockerInv st) :
    lockerInv (requestLock st path tid fw pri req).1 := by
  unfold requestLock
  split
  · exact h
  · have hinv1 := append_pending_inv st
      { id := st.nextId + 1, path := path, tid := tid, forWriting := fw,
        priority := pri, requested := req, state := LockState.pending }
      rfl rfl h
    simp only []
    split
    · rename_i hg
      apply grantLock_inv _ (st.nextId + 1) tid fw _
        (Option.isNone_iff_eq_none.mp hg) hinv1
      intro x hx hxi
      rcases List.mem_append.mp hx with h1 | h2
      · have := h.2.2 x h1
        omega
      · rw [List.mem_singleton.mp h2]
        exact ⟨rfl, rfl⟩
    · exact hinv1

/-- Removing queue entries preserves the invariant. -/
theorem filter_locks_inv (st : NodeLocker) (p : NLock → Bool)
    (h : lockerInv st) :
    lockerInv { st with locks := st.locks.filter p } := by
  obtain ⟨hWE, hnodup, hbound⟩ := h
  refine ⟨?_, ?_, ?_⟩
  · intro w hw hwl hwf l hl hll
    exact hWE w (List.mem_of_mem_filter hw) hwl hwf
      l (List.mem_of_mem_filter hl) hll
  · exact List.Nodup.sublist (List.Sublist.map _ (List.filter_sublist _)) hnodup
  · intro l hl
    exact hbound l (List.mem_of_mem_filter hl)

/-- NodeLocker.unlock preserves the invariant. -/
theorem releaseLock_inv (st : NodeLocker) (id : Nat) (processQueue : Bool)
    (h : lockerInv st) : lockerInv (releaseLock st id processQueue) := by
  unfold releaseLock
  simp only []
  split
  · exact processLockQueue_inv _ (filter_locks_inv st _ h)
  · exact filter_locks_inv st _ h

/-- Marking a lock expired preserves the invariant. -/
theorem expireMap_inv (st : NodeLocker) (i : Nat) (h : lockerInv st) :
    lockerInv { st with locks := st.locks.map (fun l =>
      if l.id = i then { l with state := LockState.expired } else l) } := by
  obtain ⟨hWE, hnodup, hbound⟩ := h
  refine ⟨?_, ?_, ?_⟩
  · intro w hw hwl hwf l hl hll
    simp only [List.mem_map] at hw hl
    obtain ⟨w0, hw0, hfw⟩ := hw
    obtain ⟨l0, hl0, hfl⟩ := hl
    subst hfw
    subst hfl
    by_cases hwi : w0.id = i
    · simp only [if_pos hwi] at hwl
      exact absurd hwl (by decide)
    · by_cases hli : l0.id = i
      · simp only [if_pos hli] at hll
        exact absurd hll (by decide)
      · simp only [if_neg hwi] at hwl hwf ⊢
        simp only [if_neg hli] at hll ⊢
        exact hWE w0 hw0 hwl hwf l0 hl0 hll
  · show ((st.locks.map _).map NLock.id).Nodup
    rw [List.map_map]
    have he : st.locks.map (NLock.id ∘ fun l =>
        if l.id = i then { l with state := LockState.expired } else l)
        = st.locks.map NLock.id := by
      apply List.map_congr_left
      intro x _
      show NLock.id (if x.id = i then _ else x) = x.id
      split <;> rfl
    rw [he]
    exact hnodup
  · intro l hl
    simp only [List.mem_map] at hl
    obtain ⟨l0, hl0, hfl⟩ := hl
    subst hfl
    show NLock.id (if l0.id = i then _ else l0) ≤ st.nextId
    have := hbound l0 hl0
    split <;> exact this

/-- Lock expiry preserves the invariant. -/
theorem expireLock_inv (st : NodeLocker) (i : Nat) (h : lockerInv st) :
    lockerInv (expireLock st i) :=
  processLockQueue_inv _ (expireMap_inv st i h)

/-- NodeLock.moveTo in the allowed branch preserves the invariant. -/
theorem moveLockTo_inv (st : NodeLocker) (lk : NLock) (newPath : String)
    (fw : Bool) (hmem : lk ∈ st.locks)
    (hallow : allowLock st.locks lk.tid fw = none)
    (h : lockerInv st) : lockerInv (moveLockTo st lk.id newPath fw) := by
  obtain ⟨hWE, hnodup, hbound⟩ := h
  have hA := (allowLock_none_iff st.locks lk.tid fw).mp hallow
  refine ⟨?_, ?_, ?_⟩
  · intro w hw hwl hwf l hl hll
    unfold moveLockTo at hw hl
    simp only [List.mem_map] at hw hl
    obtain ⟨w0, hw0, hfw⟩ := hw
    obtain ⟨l0, hl0, hfl⟩ := hl
    subst hfw
    subst hfl
    by_cases hwi : w0.id = lk.id
    · by_cases hli : l0.id = lk.id
      · have heq : w0 = l0 := nodup_id_inj hnodup hw0 hl0 (by rw [hwi, hli])
        simp only [if_pos hwi, if_pos hli]
        show l0.tid = w0.tid
        rw [heq]
      · have hw0lk : w0 = lk := nodup_id_inj hnodup hw0 hmem hwi
        simp only [if_pos hwi] at hwf ⊢
        simp only [if_neg hli] at hll ⊢
        show l0.tid = w0.tid
        rw [hw0lk]
        by_contra hne
        exact absurd ⟨hne, hll, Or.inl hwf⟩ (hA l0 hl0)
    · by_cases hli : l0.id = lk.id
      · have hl0lk : l0 = lk := nodup_id_inj hnodup hl0 hmem hli
        simp only [if_neg hwi] at hwl hwf ⊢
        simp only [if_pos hli]
        show l0.tid = w0.tid
        rw [hl0lk]
        by_contra hne
        exact absurd ⟨fun hh => hne hh.symm, hwl, Or.inr hwf⟩ (hA w0 hw0)
      · simp only [if_neg hwi] at hwl hwf ⊢
        simp only [if_neg hli] at hll ⊢
        exact hWE w0 hw0 hwl hwf l0 hl0 hll
  · show ((st.locks.map _).map NLock.id).Nodup
    rw [List.map_map]
    have he : st.locks.map (NLock.id ∘ fun l =>
        if l.id = lk.id then { l with path := newPath, forWriting := fw } else l)
        = st.locks.map NLock.id := by
      apply List.map_congr_left
      intro x _
      show NLock.id (if x.id = lk.id then _ else x) = x.id
      split <;> rfl
    rw [he]
    exact hnodup
  · intro l hl
    simp only [moveLockTo, List.mem_map] at hl
    obtain ⟨l0, hl0, hfl⟩ := hl
    subst hfl
    show NLock.id (if l0.id = lk.id then _ else l0) ≤ st.nextId
    have := hbound l0 hl0
    split <;> exact this

/-- Every atomic step of the node locker preserves the invariant. -/
theorem lockStep_inv {s t : NodeLocker} (hstep : LockStep s t)
    (h : lockerInv s) : lockerInv t := by
  cases hstep with
  | request path tid fw pri req => exact requestLock_inv s path tid fw pri req h
  | release id processQueue hact => exact releaseLock_inv s id processQueue h
  | expire id hact => exact expireLock_inv s id h
  | moveTo l newPath fw hmem hallow =>
      exact moveLockTo_inv s l newPath fw hmem
        (Option.isNone_iff_eq_none.mp hallow) h

/-- Every reachable state of the node locker satisfies the invariant. -/
theorem lockerInv_of_reachable {st : NodeLocker} (h : LockerReachable st) :
    lockerInv st := by
  induction h with
  | init =>
    refine ⟨?_, ?_, ?_⟩
    · intro w hw
      exact absurd hw (List.not_mem_nil w)
    · exact List.nodup_nil
    · intro l hl
      exact absurd hl (List.not_mem_nil l)
  | step hr hs ih => exact lockStep_inv hs ih

/-- When lock() answers an immediate grant, the _allowLock check on the
queue extended with the new request passed. -/
theorem requestLock_granted_allow {st : NodeLocker} {path : String} {T : Nat}
    {fw pri : Bool} {req : Nat}
    (h : (requestLock st path T fw pri req).2 = some true) :
    allowLock (st.locks ++ [{ id := st.nextId + 1, path := path, tid := T,
                              forWriting := fw, priority := pri,
                              requested := req,
                              state := LockState.pending }]) T fw = none := by
  unfold requestLock at h
  split at h
  · exact absurd h (by simp)
  · simp only [] at h
    split at h
    · rename_i hg
      exact Option.isNone_iff_eq_none.mp hg
    · exact absurd h (by simp)

/-- The expiry rejection guard of lock() passes when the transaction has
no expired lock. -/
theorem noexp_guard {st : NodeLocker} {T : Nat}
    (h : ∀ l ∈ st.locks, l.tid = T → l.state ≠ LockState.expired) :
    st.locks.any (fun l => l.tid == T && l.state == LockState.expired) = false := by
  rw [List.any_eq_false]
  intro l hl
  simp only [Bool.and_eq_true, beq_iff_eq, not_and]
  intro h1 h2
  exact h l hl h1 h2

/-- lock() grants immediately when the expiry guard and the _allowLock
check both pass. -/
theorem requestLock_grants (st : NodeLocker) (path : String) (T : Nat)
    (fw pri : Bool) (req : Nat)
    (hguard : st.locks.any (fun l =>
      l.tid == T && l.state == LockState.expired) = false)
    (hallow : allowLock (st.locks ++ [{ id := st.nextId + 1, path := path,
                                        tid := T, forWriting := fw,
                                        priority := pri, requested := req,
                                        state := LockState.pending }])
      T fw = none) :
    (requestLock st path T fw pri req).2 = some true := by
  unfold requestLock
  rw [if_neg (by simp [hguard])]
  simp only []
  split
  · rfl
  · rename_i hg
    have htrue : (allowLock (st.locks ++ [{ id := st.nextId + 1,
                                            path := path, tid := T,
                                            forWriting := fw, priority := pri,
                                            requested := req,
                                            state := LockState.pending }])
        T fw).isNone = true := by
      rw [hallow]
      rfl
    exact absurd htrue hg

/-- C1. Single writer exclusion of the node locker. In every reachable
state of the global lock queue the granted locks satisfy exclusion:
whenever a granted write lock exists every granted lock belongs to the
same transaction, so at most one transaction holds a granted write lock.
A read request answered with an immediate grant implies no other
transaction held a granted write lock, and conversely a read request is
granted immediately whenever no granted write lock exists at all (and the
requester has no expired lock, which would abort the request instead). -/
theorem nodeLocker_single_writer (st : NodeLocker) (hreach : LockerReachable st) :
    WriteExclusive st
    ∧ (∀ path T pri req, (requestLock st path T false pri req).2 = some true →
        ∀ o ∈ st.locks, o.state = LockState.locked → o.forWriting = true →
          o.tid = T)
    ∧ (∀ path T pri req,
        (∀ o ∈ st.locks, o.state = LockState.locked → o.forWriting = false) →
        (∀ l ∈ st.locks, l.tid = T → l.state ≠ LockState.expired) →
        (requestLock st path T false pri req).2 = some true) := by
  refine ⟨(lockerInv_of_reachable hreach).1, ?_, ?_⟩
  · intro path T pri req h o ho hol how
    have hallow := requestLock_granted_allow h
    have hA := (allowLock_none_iff _ T false).mp hallow
    by_contra hne
    exact absurd ⟨hne, hol, Or.inr how⟩ (hA o (List.mem_append_left _ ho))
  · intro path T pri req hnw hnoexp
    apply requestLock_grants
    · exact noexp_guard hnoexp
    · apply (allowLock_none_iff _ T false).mpr
      intro o ho
      rintro ⟨h1, h2, h3⟩
      rcases List.mem_append.mp ho with hm | hm
      · rcases h3 with h3 | h3
        · exact Bool.false_ne_true h3
        · rw [hnw o hm h2] at h3
          exact Bool.false_ne_true h3
      · rw [List.mem_singleton.mp hm] at h1
        exact h1 rfl

/-- Witness for C1 at a concrete reachable state holding one granted
write lock of transaction 7. -/
theorem nodeLocker_single_writer_witness :
    LockerReachable (requestLock lockerInit "root" 7 true false 1).1
    ∧ WriteExclusive (requestLock lockerInit "root" 7 true false 1).1
    ∧ (requestLock lockerInit "root" 7 true false 1).2 = some true := by
  have hr : LockerReachable (requestLock lockerInit "root" 7 true false 1).1 :=
    LockerReachable.step LockerReachable.init
      (LockStep.request lockerInit "root" 7 true false 1)
  exact ⟨hr, (nodeLocker_single_writer _ hr).1, rfl⟩

/-- C10. Same transaction re-entrancy. The conflict scan of _allowLock
skips locks of the requesting transaction, so in any reachable state in
which transaction T holds a granted write lock (and has no expired lock,
which would abort the request), any further read or write request by T on
any path passes the _allowLock check and is granted immediately. -/
theorem sameTid_reentrant_lock (st : NodeLocker) (hreach : LockerReachable st)
    (T : Nat) (w : NLock) (hw : w ∈ st.locks)
    (hlocked : w.state = LockState.locked)
    (hwrite : w.forWriting = true) (htid : w.tid = T)
    (hnoexp : ∀ l ∈ st.locks, l.tid = T → l.state ≠ LockState.expired)
    (path : String) (fw pri : Bool) (req : Nat) :
    allowLock st.locks T fw = none
    ∧ (requestLock st path T fw pri req).2 = some true := by
  have hWE := (lockerInv_of_reachable hreach).1
  have hother : ∀ o ∈ st.locks, o.state = LockState.locked → o.tid = T := by
    intro o ho hol
    rw [← htid]
    exact hWE w hw hlocked hwrite o ho hol
  constructor
  · apply (allowLock_none_iff _ T fw).mpr
    intro o ho
    rintro ⟨h1, h2, _⟩
    exact h1 (hother o ho h2)
  · apply requestLock_grants
    · exact noexp_guard hnoexp
    · apply (allowLock_none_iff _ T fw).mpr
      intro o ho
      rintro ⟨h1, h2, _⟩
      rcases List.mem_append.mp ho with hm | hm
      · exact h1 (hother o hm h2)
      · rw [List.mem_singleton.mp hm] at h1
        exact h1 rfl

/-- Witness for C10: transaction 7 holds the granted write lock on root
and its second, read request is granted immediately. -/
theorem sameTid_reentrant_lock_witness :
    (requestLock (requestLock lockerInit "root" 7 true false 1).1
      "root/users" 7 false false 2).2 = some true := by
  have hr : LockerReachable (requestLock lockerInit "root" 7 true false 1).1 :=
    LockerReachable.step LockerReachable.init
      (LockStep.request lockerInit "root" 7 true false 1)
  exact (sameTid_reentrant_lock _ hr 7
    { id := 1, path := "root", tid := 7, forWriting := true, priority := false,
      requested := 1, state := LockState.locked }
    (by decide) rfl rfl rfl (by decide) "root/users" false false 2).2

end AceBase
